import Mathlib

/-!
Verification development for the traq Record Identity and Reconciliation Engine.

This file gives a shallow embedding of the three core components of the
repository and proves properties claimed by its design document:

* `DataMerger` (src/app/common/data_ingestion/data_merger.py) — the
  Progressive Matcher: pandas dataframes are modelled by `DF` (column names,
  integer index labels, rows of optional string cells; `none` models NaN),
  and the merge algorithm is translated operation by operation, including
  the pandas behaviours the code relies on: `pd.merge` equality-joins
  non-null values (empty strings included, NaN never joins), boolean-mask
  selection keeps the original index labels, assigning
  `temp.index = range(len(temp))` replaces those labels, `iloc` is
  positional, and `pd.concat(axis=1)` aligns rows on index labels (it is
  the identity juxtaposition when the two indexes are equal, raises on
  duplicate labels otherwise, and outer-aligns with NaN fill when the
  labels are unique).  Exceptions are modelled by `Option`.

* `DerivOneKeyGenerator` (src/app/common/key_generation/derivone_key_generator.py)
  — column validation, in-place cleaning of the required columns
  (fillna('') / astype(str) / strip / upper) and the derived matching-key
  columns, for the equity branch (no Party1 LEI) and the non-equity branch
  (Party1 LEI prepended).  The external configuration tables
  (upstream_attribute_mappings, constants) only supply column names and the
  asset-class membership test, so they appear here as parameters
  (`KGParams`).

* `DerivOneDeduplicator` (src/app/common/scripts/derivone_deduplicator.py)
  — the chunked (chunk_size = 100000) deduplication-key derivation with its
  'missing_placeholder<i>' synthesis for records whose candidate identity
  fields are all empty, the asset-class dependent key qualifier, and
  `remove_duplicates` (groupby on the categorical key, first index per
  group, survivors re-indexed; the groupby orders groups by sorted key).

Logging calls are pure observability and are omitted.  Matching-key lists
and the identity/qualifier column names come from configuration collaborators
and are parameters of the embedding, as are the asset-class flags.
-/

/-! ## Tabular data model -/

/-- A cell of a dataframe: `none` models NaN / missing, `some s` a string. -/
abbrev Cell := Option String

/-- A pandas DataFrame: column names, integer index labels, rows of cells. -/
structure DF where
  cols : List String
  idx : List Nat
  rows : List (List Cell)
deriving DecidableEq, Repr

/-- Build a DataFrame with the default RangeIndex, as upstream ingestion does. -/
def mkDF (cols : List String) (rows : List (List Cell)) : DF :=
  ⟨cols, List.range rows.length, rows⟩

/-- First position of `a` in a list (pandas first-occurrence lookup for column
names, index labels and groupby keys); `none` when absent. -/
def idxOf? {α : Type} [DecidableEq α] (a : α) : List α → Option Nat
  | [] => none
  | x :: t => if x = a then some 0 else (idxOf? a t).map (· + 1)

/-- Value of column `c` in row `r` (given the column list), NaN when absent. -/
def rowCellOf (cols : List String) (r : List Cell) (c : String) : Cell :=
  match idxOf? c cols with
  | none => none
  | some j => (r[j]?).getD none

/-- Cell of `df` at row position `q`, column name `c`. -/
def dfCell (df : DF) (q : Nat) (c : String) : Cell :=
  match df.rows[q]? with
  | none => none
  | some r => rowCellOf df.cols r c

/-- The cells of one named column, `pandas df[c]`; `none` if the column is absent. -/
def getColCells (df : DF) (c : String) : Option (List Cell) :=
  (idxOf? c df.cols).map (fun j => df.rows.map (fun r => (r[j]?).getD none))

/-- Append a constant column, `df.insert(len(df.columns), c, [v] * len(df))`. -/
def addCol (df : DF) (c : String) (v : Cell) : DF :=
  ⟨df.cols ++ [c], df.idx, df.rows.map (· ++ [v])⟩

/-- Python `str(x)` after `fillna('')`: NaN becomes the empty string. -/
def toStrC (c : Cell) : String := c.getD ""

/-- A character removed by Python `str.strip()` / pandas `str.strip()`. -/
def isPyWS (c : Char) : Bool :=
  c == ' ' || c == '\t' || c == '\n' || c == '\r' || c == '\x0b' || c == '\x0c'

/-- Python `str.strip()`: drop leading and trailing whitespace. -/
def pyStrip (s : String) : String :=
  String.mk (((s.data.dropWhile isPyWS).reverse.dropWhile isPyWS).reverse)

/-- Python `str.upper()` / pandas `str.upper()` (ASCII case mapping). -/
def strUpper (s : String) : String := String.mk (s.data.map Char.toUpper)

/-- Lexicographic comparison of character lists by code point. -/
def charListLe : List Char → List Char → Bool
  | [], _ => true
  | _ :: _, [] => false
  | a :: as, b :: bs =>
    if a.toNat < b.toNat then true
    else if b.toNat < a.toNat then false
    else charListLe as bs

/-- String order used when the categorical `deduplication_key` fixes the
sorted group enumeration of `groupby`. -/
def strLeB (a b : String) : Bool := charListLe a.data b.data

/-! ## Progressive Matcher (DataMerger) -/

/-- Sorted Nat list with duplicates removed, for `pd.Index` unions. -/
def sortedNatUnion (a b : List Nat) : List Nat :=
  ((a ++ b).dedup).insertionSort (· ≤ ·)

/-- Row of `df` whose index label is `lab`; all-NaN when the label is absent
(the fill used by `pd.concat(axis=1)` outer alignment). -/
def lookupRow (df : DF) (lab : Nat) : List Cell :=
  match idxOf? lab df.idx with
  | none => df.cols.map (fun _ => none)
  | some p => (df.rows[p]?).getD (df.cols.map (fun _ => none))

/-- pandas `pd.concat([a, b], axis=1)`: when the two indexes are equal the rows
are juxtaposed; otherwise rows are outer-aligned on the sorted union of labels
(NaN fill), which pandas only permits when both indexes are duplicate-free —
on duplicate labels it raises, modelled by `none`. -/
def concatA1 (a b : DF) : Option DF :=
  if a.idx = b.idx then
    some ⟨a.cols ++ b.cols, a.idx, List.zipWith (· ++ ·) a.rows b.rows⟩
  else if a.idx.Nodup ∧ b.idx.Nodup then
    let target := sortedNatUnion a.idx b.idx
    some ⟨a.cols ++ b.cols, target, target.map (fun l => lookupRow a l ++ lookupRow b l)⟩
  else none

/-- The row pairs produced by `pd.merge(left.reset_index(), right.reset_index(),
left_on=lk, right_on=rk, how='inner')`: every pair of row positions whose key
cells are non-null and equal (pandas equality-joins empty strings like any
other value; NaN never joins), in left-major order. -/
def mergePairs (lc rc : List Cell) : List (Nat × Nat) :=
  (List.range lc.length).flatMap fun i =>
    (List.range rc.length).filterMap fun j =>
      match (lc[i]?).getD none, (rc[j]?).getD none with
      | some x, some y => if x = y then some (i, j) else none
      | _, _ => none

/-- DataMerger._process_matches: inner-merge the two key columns, take the
matched rows by position (`iloc`), concatenate them side by side and tag them
`matched`.  Returns the positional match indices and the matched frame
(`(pd.Index([]), pd.Index([]), pd.DataFrame())` when nothing matched);
`none` models a raised exception (missing key column / concat misalignment). -/
def processMatches (dfL dfR : DF) (lk rk : String) :
    Option (List Nat × List Nat × DF) :=
  match getColCells dfL lk, getColCells dfR rk with
  | some lc, some rc =>
    let prs := mergePairs lc rc
    if prs = [] then some ([], [], ⟨[], [], []⟩)
    else
      let ixs := prs.map (·.1)
      let iys := prs.map (·.2)
      let mLeft : DF := ⟨dfL.cols, ixs.filterMap (dfL.idx[·]?), ixs.filterMap (dfL.rows[·]?)⟩
      let mRight : DF := ⟨dfR.cols, iys.filterMap (dfR.idx[·]?), iys.filterMap (dfR.rows[·]?)⟩
      match concatA1 mLeft mRight with
      | none => none
      | some md => some (ixs, iys, addCol md "matching_flag" (some "matched"))
  | _, _ => none

/-- The four valid `return_type` values of `merge_data`. -/
inductive RetType
  | left
  | right
  | inner
  | full
deriving DecidableEq, Repr

/-- The state a DataMerger instance holds: the two (column-renamed) input
frames, the prefixes, the saved original column names and the prefixed
key-pair priority list. -/
structure MState where
  dfLeft : DF
  dfRight : DF
  leftPre : String
  rightPre : String
  leftColumns : List String
  rightColumns : List String
  onKeysList : List (String × String)
deriving DecidableEq, Repr

/-- DataMerger.__init__: stores the originals' column names, renames the
columns of both input frames in place by prepending the prefixes, and
prefixes the configured key pairs.  (`get_matching_keys_for_regulator` is an
external configuration collaborator, so the raw key-pair list is a
parameter.) -/
def initMerger (dfL dfR : DF) (lp rp : String) (keys : List (String × String)) : MState :=
  ⟨⟨dfL.cols.map (fun c => lp ++ c), dfL.idx, dfL.rows⟩,
   ⟨dfR.cols.map (fun c => rp ++ c), dfR.idx, dfR.rows⟩,
   lp, rp, dfL.cols, dfR.cols,
   keys.map (fun k => (lp ++ k.1, rp ++ k.2))⟩

/-- Boolean-mask selection `df[~df.index.isin(matched)]`: keeps rows whose
index label is not in `matched`, preserving the original labels. -/
def unmatchedPart (df : DF) (matched : List Nat) : DF :=
  let keep := (df.idx.zip df.rows).filter (fun p => !matched.contains p.1)
  ⟨df.cols, keep.map (·.1), keep.map (·.2)⟩

/-- The assignment `temp.index = range(len(temp))`, which replaces the original
index labels (the code's comment says "Store original indices", but this is
exactly where they are lost). -/
def setRangeIdx (df : DF) : DF :=
  ⟨df.cols, List.range df.rows.length, df.rows⟩

/-- The key-pair loop of `merge_data` (lines 82–105): for each key pair,
select the still-unconsumed rows of both sides, renumber their indexes from 0,
match on the pair, and record `temp.index[new_indices]` — which, the index
having just been renumbered, are the positions in the filtered frame, not the
original positions — as matched.  Breaks early when either side is exhausted.
Accumulates `(left_matched_indices, right_matched_indices, matched_dfs)`. -/
def passLoop (st : MState) :
    List (String × String) → List Nat → List Nat → List DF →
    Option (List Nat × List Nat × List DF)
  | [], lm, rm, acc => some (lm, rm, acc)
  | k :: rest, lm, rm, acc =>
    let lmask := st.dfLeft.idx.map (fun l => !lm.contains l)
    let rmask := st.dfRight.idx.map (fun l => !rm.contains l)
    if !(lmask.any id) || !(rmask.any id) then some (lm, rm, acc)
    else
      let tL := setRangeIdx (unmatchedPart st.dfLeft lm)
      let tR := setRangeIdx (unmatchedPart st.dfRight rm)
      match processMatches tL tR k.1 k.2 with
      | none => none
      | some (ixs, iys, mdf) =>
        if mdf.rows ≠ [] then
          passLoop st rest (sortedNatUnion lm (ixs.filterMap (tL.idx[·]?)))
            (sortedNatUnion rm (iys.filterMap (tR.idx[·]?))) (acc ++ [mdf])
        else passLoop st rest lm rm acc

/-- The left-only block (lines 116–124): a frame of NaN right columns with a
fresh 0..n-1 index is concatenated on axis 1 to the unmatched left rows
(which keep their original labels) and tagged `left_only`. -/
def buildLeftOnly (st : MState) (lu : DF) : Option DF :=
  let rEmpty : DF :=
    ⟨st.rightColumns.map (fun c => st.rightPre ++ c),
     List.range lu.rows.length,
     (List.range lu.rows.length).map (fun _ => st.rightColumns.map (fun _ => (none : Cell)))⟩
  (concatA1 lu rEmpty).map (fun d => addCol d "matching_flag" (some "left_only"))

/-- Column-name union in order of first appearance, as `pd.concat` (sort=False)
builds the outer column set. -/
def unionCols (a b : List String) : List String :=
  a ++ b.filter (fun c => !a.contains c)

/-- `pd.concat(result_dfs, ignore_index=True)`: when every frame has the same
column list the rows are stacked positionally; otherwise columns are
outer-aligned by name (NaN fill).  Either way the result gets a fresh
RangeIndex. -/
def concatRows (dfs : List DF) : DF :=
  match dfs with
  | [] => ⟨[], [], []⟩
  | d :: rest =>
    if rest.all (fun x => x.cols = d.cols) then
      let rows := (d :: rest).flatMap (·.rows)
      ⟨d.cols, List.range rows.length, rows⟩
    else
      let cols := dfs.foldl (fun acc x => unionCols acc x.cols) []
      let rows := dfs.flatMap (fun x => x.rows.map (fun r => cols.map (rowCellOf x.cols r)))
      ⟨cols, List.range rows.length, rows⟩

/-- Lines 133–152 of `merge_data`: the right-only block, the restore of both
inputs' original column names, and the final concatenation (or the empty
frame with unprefixed columns when nothing was produced). -/
def mergeFinish (st : MState) (rt : RetType) (rm : List Nat) (res : List DF) :
    Option (DF × MState) :=
  let res2 :=
    if rt = RetType.right ∨ rt = RetType.full then
      let ru := unmatchedPart st.dfRight rm
      if ru.rows ≠ [] then res ++ [addCol ru "matching_flag" (some "right_only")] else res
    else res
  let st' : MState :=
    ⟨⟨st.leftColumns, st.dfLeft.idx, st.dfLeft.rows⟩,
     ⟨st.rightColumns, st.dfRight.idx, st.dfRight.rows⟩,
     st.leftPre, st.rightPre, st.leftColumns, st.rightColumns, st.onKeysList⟩
  if res2 = [] then
    some (⟨st.leftColumns ++ st.rightColumns ++ ["matching_flag"], [], []⟩, st')
  else some (concatRows res2, st')

/-- DataMerger.merge_data.  Returns the produced frame together with the
merger state as it is when the call returns (so that the effect on the input
frames is observable); `none` models a raised exception.  Note the early
return of lines 125–131: when `return_type` is `left` or `full`, no row was
matched and there are no unmatched left rows (i.e. the left input is empty),
an empty prefixed-column frame is returned at once — skipping both the
right-only block and the restoration of the inputs' column names. -/
def mergeData (st : MState) (rt : RetType) : Option (DF × MState) :=
  match passLoop st st.onKeysList [] [] [] with
  | none => none
  | some (lm, rm, mdfs) =>
    if rt = RetType.left ∨ rt = RetType.full then
      let lu := unmatchedPart st.dfLeft lm
      if lu.rows ≠ [] then
        match buildLeftOnly st lu with
        | none => none
        | some dfU => mergeFinish st rt rm (mdfs ++ [dfU])
      else if mdfs = [] then
        some (⟨st.leftColumns.map (fun c => st.leftPre ++ c) ++
               st.rightColumns.map (fun c => st.rightPre ++ c) ++ ["matching_flag"], [], []⟩, st)
      else mergeFinish st rt rm mdfs
    else mergeFinish st rt rm mdfs

/-! ## Decimal rendering (Python f-string `{i}` for a non-negative int) -/

/-- The decimal digit character for `n < 10`. -/
def decDigit (n : Nat) : Char := Char.ofNat (48 + n)

/-- Accumulator loop producing the decimal digits of `n` in order; the first
argument is fuel bounding the number of digits (`n` itself is always enough). -/
def natDecAux : Nat → Nat → List Char → List Char
  | 0, n, acc => decDigit n :: acc
  | fuel + 1, n, acc =>
    if n < 10 then decDigit n :: acc
    else natDecAux fuel (n / 10) (decDigit (n % 10) :: acc)

/-- Decimal digit list of `n`. -/
def natDecL (n : Nat) : List Char := natDecAux n n []

/-- Decimal string of `n`, Python `str(i)` / `f'{i}'` for a natural number. -/
def natDec (n : Nat) : String := String.mk (natDecL n)

/-! ## Key Generator (DerivOneKeyGenerator) -/

/-- Configuration the generator receives from `upstream_attribute_mappings`
and `constants`: whether the asset class is one of the two equity families,
and the per-asset-class column names for the Harmonized UTI pair and
(for non-equity classes) Party1 LEI. -/
structure KGParams where
  isEquity : Bool
  hutiPreCol : String
  hutiValCol : String
  party1LeiCol : String
deriving DecidableEq, Repr

/-- The `required_columns` list built in `DerivOneKeyGenerator.__init__`. -/
def requiredColumns (p : KGParams) : List String :=
  ["USI Prefix", "USI Value", "UTI Prefix", "UTI Value", p.hutiPreCol, p.hutiValCol] ++
    (if p.isEquity then [] else [p.party1LeiCol])

/-- The per-cell cleaning of `clean_columns`: `fillna('')`, `astype(str)`,
`str.strip()`, `str.upper()`. -/
def cleanCell (c : Cell) : Cell := some (strUpper (pyStrip (c.getD "")))

/-- `clean_columns`: rewrite every required column of the frame in place with
`cleanCell`, leaving the other columns untouched. -/
def cleanColumns (p : KGParams) (df : DF) : DF :=
  ⟨df.cols, df.idx,
   df.rows.map (fun r =>
     List.zipWith (fun c v => if (requiredColumns p).contains c then cleanCell v else v)
       df.cols r)⟩

/-- `validate_columns` followed by `clean_columns`, i.e. the body of
`DerivOneKeyGenerator.__init__` after storing the frame: a missing required
column raises `KeyError` listing every missing column at once, before any
cell is touched. -/
def kgInit (p : KGParams) (df : DF) : Except String DF :=
  let missing := (requiredColumns p).filter (fun c => !df.cols.contains c)
  if missing ≠ [] then
    Except.error ("Missing required column(s): " ++ String.intercalate ", " missing)
  else Except.ok (cleanColumns p df)

/-- Column values `df[c]` as a cell list (all-NaN when absent; the generator
only reads validated columns). -/
def colVals (df : DF) (c : String) : List Cell :=
  df.rows.map (fun r => rowCellOf df.cols r c)

/-- Column assignment `df[c] = vals`: pandas replaces the column in place when
the name exists and appends a new column otherwise. -/
def setCol (df : DF) (c : String) (vals : List Cell) : DF :=
  match idxOf? c df.cols with
  | some j => ⟨df.cols, df.idx, List.zipWith (fun r v => r.set j v) df.rows vals⟩
  | none => ⟨df.cols ++ [c], df.idx, List.zipWith (fun r v => r ++ [v]) df.rows vals⟩

/-- `s1.str.cat(s2, na_rep='')`: elementwise concatenation with NaN as ''. -/
def catCells (a b : List Cell) : List Cell :=
  List.zipWith (fun x y => some (toStrC x ++ toStrC y)) a b

/-- A character kept by the regex replacement `[^A-Z0-9]` → ``''``. -/
def isUpAlnum (c : Char) : Bool :=
  (('A' ≤ c) && (c ≤ 'Z')) || (('0' ≤ c) && (c ≤ '9'))

/-- The second normalization pass on a generated key:
`.str.replace(r'[^A-Z0-9]', '', regex=True).str.upper()`. -/
def keyClean (s : String) : String := strUpper (String.mk (s.data.filter isUpAlnum))

/-- The five derived key column names. -/
def keyColNames : List String :=
  ["matching_key_usi", "matching_key_uti", "matching_key_huti",
   "matching_key_usi_value", "matching_key_uti_value"]

/-- Rewrite one existing column elementwise with `keyClean` (the final loop of
`generate_keys` over `columns_to_clean`). -/
def cleanKeyCol (df : DF) (c : String) : DF :=
  match idxOf? c df.cols with
  | some j =>
    ⟨df.cols, df.idx,
     df.rows.map (fun r => r.set j (some (keyClean (toStrC ((r[j]?).getD none)))))⟩
  | none => df

/-- `DerivOneKeyGenerator.generate_keys` on the cleaned frame: build the five
matching-key columns (equity classes concatenate prefix/value pairs, the other
classes prepend Party1 LEI), then strip non-alphanumerics and uppercase all
five. -/
def generateKeys (p : KGParams) (df : DF) : DF :=
  let base :=
    if p.isEquity then
      let d1 := setCol df "matching_key_usi" (catCells (colVals df "USI Prefix") (colVals df "USI Value"))
      let d2 := setCol d1 "matching_key_uti" (catCells (colVals d1 "UTI Prefix") (colVals d1 "UTI Value"))
      let d3 := setCol d2 "matching_key_huti" (catCells (colVals d2 p.hutiPreCol) (colVals d2 p.hutiValCol))
      let d4 := setCol d3 "matching_key_usi_value" (colVals d3 "USI Value")
      setCol d4 "matching_key_uti_value" (colVals d4 "UTI Value")
    else
      let d1 := setCol df "matching_key_usi"
        (catCells (catCells (colVals df p.party1LeiCol) (colVals df "USI Prefix")) (colVals df "USI Value"))
      let d2 := setCol d1 "matching_key_uti"
        (catCells (catCells (colVals d1 p.party1LeiCol) (colVals d1 "UTI Prefix")) (colVals d1 "UTI Value"))
      let d3 := setCol d2 "matching_key_huti"
        (catCells (catCells (colVals d2 p.party1LeiCol) (colVals d2 p.hutiPreCol)) (colVals d2 p.hutiValCol))
      let d4 := setCol d3 "matching_key_usi_value"
        (catCells (colVals d3 p.party1LeiCol) (colVals d3 "USI Value"))
      setCol d4 "matching_key_uti_value"
        (catCells (colVals d4 p.party1LeiCol) (colVals d4 "UTI Value"))
  keyColNames.foldl cleanKeyCol base

/-- The whole Key Generator operation: construction (validate + clean) followed
by `generate_keys`; an error leaves no output at all. -/
def keyGenRun (p : KGParams) (df : DF) : Except String DF :=
  (kgInit p df).map (generateKeys p)

/-! ## Deduplicator (DerivOneDeduplicator) -/

/-- Configuration of the deduplicator: the equity flag and the per-asset-class
Harmonized-UTI-value / Party1-LEI column names from the mappings tables. -/
structure DDParams where
  isEquity : Bool
  hutiCol : String
  party1LeiCol : String
deriving DecidableEq, Repr

/-- The candidate scan of `create_deduplication_key`: the first non-empty of
the stripped Harmonized UTI value, UTI Value, USI Value (each
`fillna('').astype(str).str.strip()`); empty when all three are empty. -/
def dedupScan (p : DDParams) (cols : List String) (r : List Cell) : String :=
  let h := pyStrip (toStrC (rowCellOf cols r p.hutiCol))
  let u := pyStrip (toStrC (rowCellOf cols r "UTI Value"))
  let s := pyStrip (toStrC (rowCellOf cols r "USI Value"))
  if h ≠ "" then h else if u ≠ "" then u else s

/-- The asset-class qualifier prepended to the key: for the equity classes the
UTI Prefix when the (stripped) Harmonized UTI value is non-empty and the USI
Prefix otherwise (both only `fillna('').astype(str)`); for the other classes
the Party1 LEI when that column exists, else nothing. -/
def dedupQual (p : DDParams) (cols : List String) (r : List Cell) : String :=
  if p.isEquity then
    if pyStrip (toStrC (rowCellOf cols r p.hutiCol)) ≠ "" then
      toStrC (rowCellOf cols r "UTI Prefix")
    else toStrC (rowCellOf cols r "USI Prefix")
  else if cols.contains p.party1LeiCol then toStrC (rowCellOf cols r p.party1LeiCol)
  else ""

/-- Placeholder string for the `i`-th missing entry:
`f'missing_placeholder{i}'`. -/
def phStr (n : Nat) : String := "missing_placeholder" ++ natDec n

/-- Placeholder assignment inside one chunk: the scan results are walked in
order and the `cnt`-th empty one (0-based, `cnt` starting from the caller's
seed) is replaced by `phStr (base + cnt + 1)`, mirroring
`range(start_idx + 1, start_idx + len(missing_indices) + 1)`. -/
def assignPh : List String → Nat → Nat → List String
  | [], _, _ => []
  | k :: rest, base, cnt =>
    if k = "" then phStr (base + cnt + 1) :: assignPh rest base (cnt + 1)
    else k :: assignPh rest base cnt

/-- Keys of one chunk starting at row offset `base`: scan, placeholder-fill,
then prepend the per-record qualifier (the qualifier is applied after the
placeholders, so placeholder keys are qualified too). -/
def chunkKeys (p : DDParams) (cols : List String) (recs : List (List Cell)) (base : Nat) :
    List String :=
  List.zipWith (fun r k => dedupQual p cols r ++ k)
    recs (assignPh (recs.map (dedupScan p cols)) base 0)

/-- The chunk loop of `create_deduplication_key`
(`for start_idx in range(0, total_rows, chunk_size)`, chunk_size = 100000),
written with a structural fuel argument (the row count is always enough fuel,
since every chunk consumes at least one row). -/
def dedupKeysFromAux (p : DDParams) (cols : List String) :
    Nat → List (List Cell) → Nat → List String
  | 0, _, _ => []
  | fuel + 1, recs, base =>
    if recs.isEmpty then []
    else
      chunkKeys p cols (recs.take 100000) base ++
        dedupKeysFromAux p cols fuel (recs.drop 100000) (base + 100000)

/-- The chunk loop of `create_deduplication_key` over a whole row list. -/
def dedupKeysFrom (p : DDParams) (cols : List String) (recs : List (List Cell))
    (base : Nat) : List String :=
  dedupKeysFromAux p cols recs.length recs base

/-- The full `deduplication_key` column of a frame. -/
def createDedupKeys (p : DDParams) (df : DF) : List String :=
  dedupKeysFrom p df.cols df.rows 0

/-- `create_deduplication_key`: the key Series is appended to the frame as the
`deduplication_key` column. -/
def withDedupKeyCol (p : DDParams) (df : DF) : DF :=
  ⟨df.cols ++ ["deduplication_key"], df.idx,
   List.zipWith (fun r k => r ++ [some k]) df.rows (createDedupKeys p df)⟩

/-- `DerivOneDeduplicator.remove_duplicates`: build the key column if absent,
take the first original position of every distinct key (the categorical
groupby enumerates groups in sorted key order), select those rows by position
and reset the index. -/
def removeDuplicates (p : DDParams) (df : DF) : DF :=
  let d := withDedupKeyCol p df
  let keys := createDedupKeys p df
  let surv := (keys.dedup.insertionSort (fun a b => strLeB a b = true)).filterMap
    (fun k => idxOf? k keys)
  ⟨d.cols, List.range surv.length, surv.filterMap (d.rows[·]?)⟩

/-! ## Helper definitions for the statements and proofs -/

/-- Number of empty strings among the first `j` scan results — the rank
bookkeeping behind the placeholder numbering. -/
def cntEmpty : List String → Nat → Nat
  | _, 0 => 0
  | [], _ + 1 => 0
  | k :: t, j + 1 => (if k = "" then 1 else 0) + cntEmpty t j

/-- The placeholder number `create_deduplication_key` assigns to the record at
global position `q` (if its scan is empty): its chunk's `start_idx`, plus its
1-based rank among the empty scans of its chunk. -/
def phNumAt (scans : List String) (base q : Nat) : Nat :=
  if q < 100000 then base + cntEmpty scans (q + 1)
  else phNumAt (scans.drop 100000) (base + 100000) (q - 100000)
termination_by q
decreasing_by omega

/-- Longest all-digit suffix of a character list. -/
def digSuffix (l : List Char) : List Char := (l.reverse.takeWhile Char.isDigit).reverse

/-- Value of a digit list read in base 10. -/
def charsVal (l : List Char) : Nat := l.foldl (fun a c => 10 * a + (c.toNat - 48)) 0

/-- Last cell of an output row (where the merge flag / deduplication key sit). -/
def lastCell (r : List Cell) : Cell := (r.getLast?).getD none

/-! ## Basic list lemmas -/

theorem mem_of_getElem_some {α : Type} {l : List α} {i : Nat} {a : α}
    (h : l[i]? = some a) : a ∈ l := by
  induction l generalizing i with
  | nil => simp at h
  | cons x t ih =>
    cases i with
    | zero =>
      simp at h
      simp [h]
    | succ i' =>
      simp at h
      exact List.mem_cons_of_mem _ (ih h)

theorem exists_getElem_of_mem {α : Type} {l : List α} {a : α} (h : a ∈ l) :
    ∃ i : Nat, l[i]? = some a := by
  induction l with
  | nil => simp at h
  | cons x t ih =>
    rcases List.mem_cons.mp h with h1 | h1
    · exact ⟨0, by simp [h1]⟩
    · obtain ⟨i, hi⟩ := ih h1
      exact ⟨i + 1, by simpa using hi⟩

theorem idxOf?_eq_none_iff {α : Type} [DecidableEq α] {a : α} {l : List α} :
    idxOf? a l = none ↔ a ∉ l := by
  induction l with
  | nil => simp [idxOf?]
  | cons x t ih =>
    by_cases hx : x = a
    · subst hx
      simp [idxOf?]
    · simp only [idxOf?, if_neg hx, Option.map_eq_none', ih]
      constructor
      · intro h hc
        rcases List.mem_cons.mp hc with h1 | h1
        · exact hx h1.symm
        · exact h h1
      · intro h h1
        exact h (List.mem_cons_of_mem _ h1)

theorem idxOf?_of_mem {α : Type} [DecidableEq α] {a : α} {l : List α} (h : a ∈ l) :
    ∃ i : Nat, idxOf? a l = some i := by
  cases hi : idxOf? a l with
  | none => exact absurd (idxOf?_eq_none_iff.mp hi) (by simp [h])
  | some i => exact ⟨i, rfl⟩

theorem idxOf?_getElem {α : Type} [DecidableEq α] {a : α} {l : List α} {i : Nat}
    (h : idxOf? a l = some i) : l[i]? = some a ∧ ∀ j, j < i → l[j]? ≠ some a := by
  induction l generalizing i with
  | nil => simp [idxOf?] at h
  | cons x t ih =>
    by_cases hx : x = a
    · subst hx
      simp [idxOf?] at h
      subst h
      exact ⟨by simp, fun j hj => by omega⟩
    · simp only [idxOf?, if_neg hx, Option.map_eq_some'] at h
      obtain ⟨i', hi', hsucc⟩ := h
      obtain ⟨hget, hmin⟩ := ih hi'
      subst hsucc
      refine ⟨by simpa using hget, ?_⟩
      intro j hj
      cases j with
      | zero =>
        simp only [List.getElem?_cons_zero]
        exact fun hc => hx (Option.some.inj hc)
      | succ j' =>
        simp only [List.getElem?_cons_succ]
        exact hmin j' (by omega)

theorem idxOf?_append_left {α : Type} [DecidableEq α] {a : α} {l1 : List α}
    (l2 : List α) (h : a ∈ l1) : idxOf? a (l1 ++ l2) = idxOf? a l1 := by
  induction l1 with
  | nil => simp at h
  | cons x t ih =>
    by_cases hx : x = a
    · simp [idxOf?, hx]
    · have ht : a ∈ t := by
        rcases List.mem_cons.mp h with h1 | h1
        · exact absurd h1.symm hx
        · exact h1
      simp [idxOf?, hx, ih ht]

theorem idxOf?_append_right {α : Type} [DecidableEq α] {a : α} {l1 l2 : List α} {i : Nat}
    (h : a ∉ l1) (h2 : idxOf? a l2 = some i) :
    idxOf? a (l1 ++ l2) = some (l1.length + i) := by
  induction l1 with
  | nil => simpa using h2
  | cons x t ih =>
    have hx : x ≠ a := fun hc => h (by simp [hc])
    have ht : a ∉ t := fun hc => h (by simp [hc])
    have hrec := ih ht
    simp only [List.cons_append, idxOf?, if_neg hx, List.append_eq, hrec,
      Option.map_some', List.length_cons]
    refine congrArg some ?_
    omega

theorem idxOf?_eq_of_unique {α : Type} [DecidableEq α] {a : α} {l : List α} {q : Nat}
    (h : l[q]? = some a) (hu : ∀ j, l[j]? = some a → j = q) : idxOf? a l = some q := by
  obtain ⟨i, hi⟩ := idxOf?_of_mem (mem_of_getElem_some h)
  have := (idxOf?_getElem hi).1
  rw [hi, hu i this]

/-! ## Decimal rendering lemmas -/

theorem natDecAux_irrel : ∀ (f n : Nat) (acc : List Char), n ≤ f →
    natDecAux f n acc = natDecAux n n acc := by
  intro f
  induction f using Nat.strong_induction_on with
  | _ f ihf =>
    intro n acc hn
    cases f with
    | zero =>
      have : n = 0 := by omega
      subst this
      rfl
    | succ f' =>
      by_cases h : n < 10
      · cases n with
        | zero => rfl
        | succ m => simp only [natDecAux, if_pos h]
      · obtain ⟨m, rfl⟩ : ∃ m, n = m + 1 := ⟨n - 1, by omega⟩
        simp only [natDecAux, if_neg h]
        rw [ihf f' (by omega) _ _ (by omega), ihf m (by omega) _ _ (by omega)]

theorem natDecL_lt10 {n : Nat} (h : n < 10) : natDecL n = [decDigit n] := by
  cases n with
  | zero => rfl
  | succ m =>
    show natDecAux (m + 1) (m + 1) [] = _
    simp only [natDecAux, if_pos h]

theorem natDecAux_append : ∀ n : Nat, ∀ acc, natDecAux n n acc = natDecL n ++ acc := by
  intro n
  induction n using Nat.strong_induction_on with
  | _ n ih =>
    intro acc
    by_cases h : n < 10
    · cases n with
      | zero => rfl
      | succ m =>
        show natDecAux (m + 1) (m + 1) acc = natDecL (m + 1) ++ acc
        rw [natDecL_lt10 h]
        simp only [natDecAux, if_pos h]
        rfl
    · obtain ⟨m, rfl⟩ : ∃ m, n = m + 1 := ⟨n - 1, by omega⟩
      have hstep : ∀ ac : List Char, natDecAux (m + 1) (m + 1) ac =
          natDecAux ((m + 1) / 10) ((m + 1) / 10) (decDigit ((m + 1) % 10) :: ac) := by
        intro ac
        simp only [natDecAux, if_neg h]
        exact natDecAux_irrel m _ _ (by omega)
      have hL : natDecL (m + 1) = natDecL ((m + 1) / 10) ++ [decDigit ((m + 1) % 10)] := by
        show natDecAux (m + 1) (m + 1) [] = _
        rw [hstep [], ih _ (by omega) _]
      rw [hstep acc, ih _ (by omega) _, hL, List.append_assoc]
      rfl

theorem natDecL_ge10 {n : Nat} (h : ¬ n < 10) :
    natDecL n = natDecL (n / 10) ++ [decDigit (n % 10)] := by
  obtain ⟨m, rfl⟩ : ∃ m, n = m + 1 := ⟨n - 1, by omega⟩
  show natDecAux (m + 1) (m + 1) [] = _
  simp only [natDecAux, if_neg h]
  rw [natDecAux_irrel m _ _ (by omega), natDecAux_append]

theorem decDigit_isDigit {n : Nat} (h : n < 10) : (decDigit n).isDigit = true := by
  interval_cases n <;> decide

theorem decDigit_toNat {n : Nat} (h : n < 10) : (decDigit n).toNat - 48 = n := by
  interval_cases n <;> decide

theorem natDecL_digits (n : Nat) : ∀ c ∈ natDecL n, c.isDigit = true := by
  induction n using Nat.strong_induction_on with
  | _ n ih =>
    by_cases h : n < 10
    · rw [natDecL_lt10 h]
      intro c hc
      simp at hc
      exact hc ▸ decDigit_isDigit h
    · rw [natDecL_ge10 h]
      intro c hc
      rcases List.mem_append.mp hc with h1 | h1
      · exact ih _ (Nat.div_lt_self (by omega) (by omega)) c h1
      · simp at h1
        exact h1 ▸ decDigit_isDigit (Nat.mod_lt _ (by omega))

theorem charsVal_natDecL (n : Nat) : charsVal (natDecL n) = n := by
  induction n using Nat.strong_induction_on with
  | _ n ih =>
    by_cases h : n < 10
    · rw [natDecL_lt10 h]
      have : charsVal [decDigit n] = (decDigit n).toNat - 48 := by
        simp [charsVal]
      rw [this, decDigit_toNat h]
    · rw [natDecL_ge10 h]
      have hstep : charsVal (natDecL (n / 10) ++ [decDigit (n % 10)]) =
          10 * charsVal (natDecL (n / 10)) + ((decDigit (n % 10)).toNat - 48) := by
        simp [charsVal, List.foldl_append]
      rw [hstep, ih _ (Nat.div_lt_self (by omega) (by omega)),
        decDigit_toNat (Nat.mod_lt _ (by omega))]
      omega

theorem natDecL_inj {m n : Nat} (h : natDecL m = natDecL n) : m = n := by
  rw [← charsVal_natDecL m, ← charsVal_natDecL n, h]

/-! ## Digit-suffix separation: a qualified placeholder determines its number -/

theorem takeWhile_append_not {α : Type} (p : α → Bool) :
    ∀ (l1 : List α) (c : α) (l2 : List α), (∀ x ∈ l1, p x = true) → p c = false →
      List.takeWhile p (l1 ++ c :: l2) = l1 := by
  intro l1
  induction l1 with
  | nil =>
    intro c l2 _ hc
    simp [List.takeWhile_cons, hc]
  | cons a t ih =>
    intro c l2 hall hc
    have ha : p a = true := hall a (by simp)
    simp only [List.cons_append, List.takeWhile_cons, ha, if_true]
    rw [ih c l2 (fun x hx => hall x (by simp [hx])) hc]

theorem digSuffix_append (xs d : List Char) (hd : ∀ c ∈ d, Char.isDigit c = true)
    (c : Char) (hc : Char.isDigit c = false) : digSuffix (xs ++ c :: d) = d := by
  have hrev : (xs ++ c :: d).reverse = d.reverse ++ c :: xs.reverse := by
    simp
  rw [digSuffix, hrev,
    takeWhile_append_not _ _ _ _ (fun x hx => hd x (List.mem_reverse.mp hx)) hc,
    List.reverse_reverse]

theorem phStr_data (n : Nat) :
    (phStr n).data = "missing_placeholde".data ++ 'r' :: natDecL n := by
  show ("missing_placeholder" ++ natDec n).data = _
  rw [String.data_append]
  have h1 : "missing_placeholder".data = "missing_placeholde".data ++ ['r'] := by decide
  have h2 : (natDec n).data = natDecL n := rfl
  rw [h1, h2, List.append_assoc]
  rfl

theorem qual_phStr_inj {a b : String} {m n : Nat} (h : a ++ phStr m = b ++ phStr n) :
    m = n := by
  have hd : (a ++ phStr m).data = (b ++ phStr n).data := by rw [h]
  rw [String.data_append, String.data_append, phStr_data, phStr_data,
    ← List.append_assoc, ← List.append_assoc] at hd
  have h1 : digSuffix ((a.data ++ "missing_placeholde".data) ++ 'r' :: natDecL m) =
      natDecL m := digSuffix_append _ _ (natDecL_digits m) _ (by decide)
  have h2 : digSuffix ((b.data ++ "missing_placeholde".data) ++ 'r' :: natDecL n) =
      natDecL n := digSuffix_append _ _ (natDecL_digits n) _ (by decide)
  exact natDecL_inj (h1 ▸ h2 ▸ congrArg digSuffix hd)

theorem qual_ph_ne (a b : String) {m n : Nat} (h : m ≠ n) :
    a ++ phStr m ≠ b ++ phStr n :=
  fun hc => h (qual_phStr_inj hc)

/-! ## Deduplication-key lemmas -/

theorem cntEmpty_le (ks : List String) : ∀ j, cntEmpty ks j ≤ j := by
  induction ks with
  | nil => intro j; cases j <;> simp [cntEmpty]
  | cons x t ih =>
    intro j
    cases j with
    | zero => simp [cntEmpty]
    | succ j' =>
      have := ih j'
      by_cases hx : x = "" <;> simp [cntEmpty, hx] <;> omega

theorem cntEmpty_mono (ks : List String) : ∀ j j', j ≤ j' → cntEmpty ks j ≤ cntEmpty ks j' := by
  induction ks with
  | nil =>
    intro j j' _
    cases j <;> cases j' <;> simp [cntEmpty]
  | cons x t ih =>
    intro j j' hj
    cases j with
    | zero => simp [cntEmpty]
    | succ j0 =>
      cases j' with
      | zero => omega
      | succ j1 =>
        have := ih j0 j1 (by omega)
        simp only [cntEmpty]
        omega

theorem cntEmpty_succ (ks : List String) : ∀ (q : Nat) (k : String), ks[q]? = some k →
    cntEmpty ks (q + 1) = cntEmpty ks q + (if k = "" then 1 else 0) := by
  induction ks with
  | nil => intro q k h; simp at h
  | cons x t ih =>
    intro q k h
    cases q with
    | zero =>
      simp only [List.getElem?_cons_zero] at h
      have hxk : x = k := Option.some.inj h
      subst hxk
      simp [cntEmpty]
    | succ q' =>
      simp only [List.getElem?_cons_succ] at h
      have := ih q' k h
      simp only [cntEmpty]
      omega

theorem cntEmpty_strict (ks : List String) {q q' : Nat} (h : q < q')
    (h' : ks[q']? = some "") : cntEmpty ks (q + 1) < cntEmpty ks (q' + 1) := by
  have h1 : cntEmpty ks (q + 1) ≤ cntEmpty ks q' := cntEmpty_mono ks _ _ (by omega)
  have h2 : cntEmpty ks (q' + 1) = cntEmpty ks q' + 1 := by
    rw [cntEmpty_succ ks q' "" h']
    simp
  omega

theorem assignPh_length (ks : List String) : ∀ base cnt, (assignPh ks base cnt).length = ks.length := by
  induction ks with
  | nil => intro base cnt; simp [assignPh]
  | cons x t ih =>
    intro base cnt
    by_cases hx : x = "" <;> simp [assignPh, hx, ih]

theorem assignPh_cons_empty (t : List String) (base cnt : Nat) :
    assignPh ("" :: t) base cnt = phStr (base + cnt + 1) :: assignPh t base (cnt + 1) := by
  simp [assignPh]

theorem assignPh_cons_nonempty {x : String} (hx : x ≠ "") (t : List String) (base cnt : Nat) :
    assignPh (x :: t) base cnt = x :: assignPh t base cnt := by
  simp [assignPh, hx]

theorem assignPh_getElem_empty (ks : List String) : ∀ base cnt q : Nat, ks[q]? = some "" →
    (assignPh ks base cnt)[q]? = some (phStr (base + cnt + cntEmpty ks (q + 1))) := by
  induction ks with
  | nil => intro base cnt q h; simp at h
  | cons x t ih =>
    intro base cnt q h
    cases q with
    | zero =>
      simp only [List.getElem?_cons_zero] at h
      have hx : x = "" := Option.some.inj h
      subst hx
      rw [assignPh_cons_empty]
      simp [cntEmpty]
    | succ q' =>
      simp only [List.getElem?_cons_succ] at h
      by_cases hx : x = ""
      · subst hx
        rw [assignPh_cons_empty, List.getElem?_cons_succ, ih base (cnt + 1) q' h]
        have harg : base + (cnt + 1) + cntEmpty t (q' + 1) =
            base + cnt + cntEmpty ("" :: t) (q' + 1 + 1) := by
          simp [cntEmpty]
          omega
        rw [harg]
      · rw [assignPh_cons_nonempty hx, List.getElem?_cons_succ, ih base cnt q' h]
        have harg : base + cnt + cntEmpty t (q' + 1) =
            base + cnt + cntEmpty (x :: t) (q' + 1 + 1) := by
          simp [cntEmpty, hx]
        rw [harg]

theorem assignPh_getElem_nonempty (ks : List String) :
    ∀ (base cnt q : Nat) (k : String), ks[q]? = some k → k ≠ "" →
      (assignPh ks base cnt)[q]? = some k := by
  induction ks with
  | nil => intro base cnt q k h; simp at h
  | cons x t ih =>
    intro base cnt q k h hk
    cases q with
    | zero =>
      simp only [List.getElem?_cons_zero] at h
      have hx : x = k := Option.some.inj h
      subst hx
      rw [assignPh_cons_nonempty hk]
      simp
    | succ q' =>
      simp only [List.getElem?_cons_succ] at h
      by_cases hx : x = ""
      · subst hx
        rw [assignPh_cons_empty, List.getElem?_cons_succ]
        exact ih base (cnt + 1) q' k h hk
      · rw [assignPh_cons_nonempty hx, List.getElem?_cons_succ]
        exact ih base cnt q' k h hk

theorem chunkKeys_length (p : DDParams) (cols : List String) (recs : List (List Cell))
    (base : Nat) : (chunkKeys p cols recs base).length = recs.length := by
  simp [chunkKeys, assignPh_length]

theorem chunkKeys_getElem_empty (p : DDParams) (cols : List String)
    (recs : List (List Cell)) (base q : Nat) (r : List Cell) (h : recs[q]? = some r)
    (he : dedupScan p cols r = "") :
    (chunkKeys p cols recs base)[q]? =
      some (dedupQual p cols r ++
        phStr (base + cntEmpty (recs.map (dedupScan p cols)) (q + 1))) := by
  have hs : (recs.map (dedupScan p cols))[q]? = some "" := by
    simp [h, he]
  have hph := assignPh_getElem_empty (recs.map (dedupScan p cols)) base 0 q hs
  rw [chunkKeys, List.getElem?_zipWith (f := fun r k => dedupQual p cols r ++ k), h, hph]
  simp

theorem chunkKeys_getElem_nonempty (p : DDParams) (cols : List String)
    (recs : List (List Cell)) (base q : Nat) (r : List Cell) (h : recs[q]? = some r)
    (he : dedupScan p cols r ≠ "") :
    (chunkKeys p cols recs base)[q]? =
      some (dedupQual p cols r ++ dedupScan p cols r) := by
  have hs : (recs.map (dedupScan p cols))[q]? = some (dedupScan p cols r) := by
    simp [h]
  have hph := assignPh_getElem_nonempty (recs.map (dedupScan p cols)) base 0 q _ hs he
  rw [chunkKeys, List.getElem?_zipWith (f := fun r k => dedupQual p cols r ++ k), h, hph]

theorem cntEmpty_take (l : List String) : ∀ n j, j ≤ n → cntEmpty (l.take n) j = cntEmpty l j := by
  induction l with
  | nil => intro n j _; simp
  | cons x t ih =>
    intro n j hj
    cases j with
    | zero => simp [cntEmpty]
    | succ j' =>
      cases n with
      | zero => omega
      | succ n' =>
        simp only [List.take_succ_cons, cntEmpty]
        rw [ih n' j' (by omega)]

theorem dedupKeysFromAux_irrel (p : DDParams) (cols : List String) :
    ∀ (f : Nat) (recs : List (List Cell)) (base : Nat), recs.length ≤ f →
      dedupKeysFromAux p cols f recs base = dedupKeysFromAux p cols recs.length recs base := by
  intro f
  induction f using Nat.strong_induction_on with
  | _ f ihf =>
    intro recs base hlen
    cases f with
    | zero =>
      have h0 : recs.length = 0 := by omega
      rw [List.length_eq_zero.mp h0]
      rfl
    | succ f' =>
      by_cases he : recs.isEmpty
      · rw [List.isEmpty_iff.mp he]
        rfl
      · have hpos : 0 < recs.length := List.length_pos.mpr (fun hc => he (by simp [hc]))
        obtain ⟨m, hm⟩ : ∃ m, recs.length = m + 1 := ⟨recs.length - 1, by omega⟩
        rw [hm]
        simp only [dedupKeysFromAux, if_neg he]
        have hd : (recs.drop 100000).length ≤ f' := by
          simp only [List.length_drop]
          omega
        have hd' : (recs.drop 100000).length ≤ m := by
          simp only [List.length_drop]
          omega
        rw [ihf f' (by omega) _ _ hd, ihf m (by omega) _ _ hd']

theorem dedupKeysFrom_unfold (p : DDParams) (cols : List String)
    (recs : List (List Cell)) (base : Nat) :
    dedupKeysFrom p cols recs base =
      if recs.isEmpty then []
      else chunkKeys p cols (recs.take 100000) base ++
        dedupKeysFrom p cols (recs.drop 100000) (base + 100000) := by
  by_cases he : recs.isEmpty
  · rw [if_pos he, List.isEmpty_iff.mp he]
    rfl
  · rw [if_neg he]
    have hpos : 0 < recs.length := List.length_pos.mpr (fun hc => he (by simp [hc]))
    obtain ⟨m, hm⟩ : ∃ m, recs.length = m + 1 := ⟨recs.length - 1, by omega⟩
    show dedupKeysFromAux p cols recs.length recs base = _
    rw [hm]
    simp only [dedupKeysFromAux, if_neg he]
    rw [dedupKeysFromAux_irrel p cols m _ _ (by simp only [List.length_drop]; omega)]
    rfl

theorem dedupKeysFrom_length (p : DDParams) (cols : List String) :
    ∀ (recs : List (List Cell)) (base : Nat),
      (dedupKeysFrom p cols recs base).length = recs.length := by
  suffices H : ∀ (n : Nat) (recs : List (List Cell)), recs.length = n → ∀ base : Nat,
      (dedupKeysFrom p cols recs base).length = recs.length by
    intro recs base
    exact H recs.length recs rfl base
  intro n
  induction n using Nat.strong_induction_on with
  | _ n ih =>
    intro recs hlen base
    by_cases he : recs.isEmpty
    · rw [dedupKeysFrom_unfold, if_pos he, List.isEmpty_iff.mp he]
      rfl
    · rw [dedupKeysFrom_unfold, if_neg he]
      have hpos : 0 < recs.length := List.length_pos.mpr (fun hc => he (by simp [hc]))
      rw [List.length_append, chunkKeys_length,
        ih (recs.drop 100000).length (by simp only [List.length_drop]; omega) _ rfl
          (base + 100000),
        List.length_take, List.length_drop]
      omega

theorem dedupKeysFrom_getElem_nonempty (p : DDParams) (cols : List String) :
    ∀ (recs : List (List Cell)) (base : Nat), ∀ (q : Nat) (r : List Cell),
      recs[q]? = some r → dedupScan p cols r ≠ "" →
      (dedupKeysFrom p cols recs base)[q]? =
        some (dedupQual p cols r ++ dedupScan p cols r) := by
  suffices H : ∀ (n : Nat) (recs : List (List Cell)), recs.length = n →
      ∀ (base : Nat) (q : Nat) (r : List Cell),
        recs[q]? = some r → dedupScan p cols r ≠ "" →
        (dedupKeysFrom p cols recs base)[q]? =
          some (dedupQual p cols r ++ dedupScan p cols r) by
    intro recs base q r h hne
    exact H recs.length recs rfl base q r h hne
  intro n
  induction n using Nat.strong_induction_on with
  | _ n ihn =>
    intro recs hlen base q r h hne
    have he : ¬ recs.isEmpty := by
      intro hc
      rw [List.isEmpty_iff.mp hc] at h
      simp at h
    have ih : ∀ (q : Nat) (r : List Cell), (recs.drop 100000)[q]? = some r →
        dedupScan p cols r ≠ "" →
        (dedupKeysFrom p cols (recs.drop 100000) (base + 100000))[q]? =
          some (dedupQual p cols r ++ dedupScan p cols r) := by
      intro q r hq hner
      have hpos : 0 < recs.length := List.length_pos.mpr (fun hc => he (by simp [hc]))
      exact ihn (recs.drop 100000).length (by simp only [List.length_drop]; omega) _ rfl
        (base + 100000) q r hq hner
    have hqlen : q < recs.length := by
      by_contra hc
      rw [List.getElem?_eq_none (by omega)] at h
      exact Option.noConfusion h
    rw [dedupKeysFrom_unfold, if_neg he]
    by_cases hq : q < (chunkKeys p cols (recs.take 100000) base).length
    · rw [List.getElem?_append, if_pos hq]
      rw [chunkKeys_length, List.length_take] at hq
      have htake : (recs.take 100000)[q]? = some r := by
        rw [List.getElem?_take]
        simp only [if_pos (by omega : q < 100000)]
        exact h
      exact chunkKeys_getElem_nonempty p cols _ base q r htake hne
    · push_neg at hq
      rw [List.getElem?_append, if_neg (by omega)]
      rw [chunkKeys_length, List.length_take] at hq ⊢
      have hmin : min 100000 recs.length = 100000 := by omega
      rw [hmin] at hq ⊢
      have hdrop : (recs.drop 100000)[q - 100000]? = some r := by
        rw [List.getElem?_drop]
        have : 100000 + (q - 100000) = q := by omega
        rw [this]
        exact h
      exact ih (q - 100000) r hdrop hne

theorem dedupKeysFrom_getElem_empty (p : DDParams) (cols : List String) :
    ∀ (recs : List (List Cell)) (base : Nat), ∀ (q : Nat) (r : List Cell),
      recs[q]? = some r → dedupScan p cols r = "" →
      (dedupKeysFrom p cols recs base)[q]? =
        some (dedupQual p cols r ++
          phStr (phNumAt (recs.map (dedupScan p cols)) base q)) := by
  suffices H : ∀ (n : Nat) (recs : List (List Cell)), recs.length = n →
      ∀ (base : Nat) (q : Nat) (r : List Cell),
        recs[q]? = some r → dedupScan p cols r = "" →
        (dedupKeysFrom p cols recs base)[q]? =
          some (dedupQual p cols r ++
            phStr (phNumAt (recs.map (dedupScan p cols)) base q)) by
    intro recs base q r h hemp
    exact H recs.length recs rfl base q r h hemp
  intro n
  induction n using Nat.strong_induction_on with
  | _ n ihn =>
    intro recs hlen base q r h hemp
    have he : ¬ recs.isEmpty := by
      intro hc
      rw [List.isEmpty_iff.mp hc] at h
      simp at h
    have ih : ∀ (q : Nat) (r : List Cell), (recs.drop 100000)[q]? = some r →
        dedupScan p cols r = "" →
        (dedupKeysFrom p cols (recs.drop 100000) (base + 100000))[q]? =
          some (dedupQual p cols r ++
            phStr (phNumAt ((recs.drop 100000).map (dedupScan p cols))
              (base + 100000) q)) := by
      intro q r hq hemr
      have hpos : 0 < recs.length := List.length_pos.mpr (fun hc => he (by simp [hc]))
      exact ihn (recs.drop 100000).length (by simp only [List.length_drop]; omega) _ rfl
        (base + 100000) q r hq hemr
    have hqlen : q < recs.length := by
      by_contra hc
      rw [List.getElem?_eq_none (by omega)] at h
      exact Option.noConfusion h
    rw [dedupKeysFrom_unfold, if_neg he]
    by_cases hq : q < (chunkKeys p cols (recs.take 100000) base).length
    · rw [List.getElem?_append, if_pos hq]
      rw [chunkKeys_length, List.length_take] at hq
      have htake : (recs.take 100000)[q]? = some r := by
        rw [List.getElem?_take]
        simp only [if_pos (by omega : q < 100000)]
        exact h
      rw [chunkKeys_getElem_empty p cols _ base q r htake hemp]
      rw [phNumAt, if_pos (by omega : q < 100000)]
      rw [List.map_take, cntEmpty_take _ _ _ (by omega : q + 1 ≤ 100000)]
    · push_neg at hq
      rw [List.getElem?_append, if_neg (by omega)]
      rw [chunkKeys_length, List.length_take] at hq ⊢
      have hmin : min 100000 recs.length = 100000 := by omega
      rw [hmin] at hq ⊢
      have hdrop : (recs.drop 100000)[q - 100000]? = some r := by
        rw [List.getElem?_drop]
        have : 100000 + (q - 100000) = q := by omega
        rw [this]
        exact h
      rw [ih (q - 100000) r hdrop hemp]
      rw [List.map_drop]
      have hnum : phNumAt (recs.map (dedupScan p cols)) base q =
          phNumAt ((recs.map (dedupScan p cols)).drop 100000) (base + 100000) (q - 100000) := by
        rw [phNumAt, if_neg (by omega : ¬ q < 100000)]
      rw [hnum]

theorem phNumAt_gt_base : ∀ (scans : List String) (base q : Nat),
    scans[q]? = some "" → base < phNumAt scans base q := by
  intro scans base q
  induction scans, base, q using phNumAt.induct with
  | case1 scans base q hq =>
    intro h
    rw [phNumAt, if_pos hq]
    have h1 : cntEmpty scans (q + 1) = cntEmpty scans q + 1 := by
      rw [cntEmpty_succ scans q "" h]
      simp
    omega
  | case2 scans base q hq ih =>
    intro h
    rw [phNumAt, if_neg hq]
    have hd : (scans.drop 100000)[q - 100000]? = some "" := by
      rw [List.getElem?_drop]
      have : 100000 + (q - 100000) = q := by omega
      rw [this]
      exact h
    have := ih hd
    omega

theorem phNumAt_le_chunk (scans : List String) (base q : Nat) (hq : q < 100000) :
    phNumAt scans base q ≤ base + 100000 := by
  rw [phNumAt, if_pos hq]
  have := cntEmpty_le scans (q + 1)
  omega

theorem phNumAt_strictMono : ∀ (scans : List String) (base q' : Nat), ∀ q : Nat, q < q' →
    scans[q']? = some "" → phNumAt scans base q < phNumAt scans base q' := by
  intro scans base q'
  induction scans, base, q' using phNumAt.induct with
  | case1 scans base q' hq' =>
    intro q hqq h
    rw [phNumAt, if_pos (by omega : q < 100000)]
    have hR : phNumAt scans base q' = base + cntEmpty scans (q' + 1) := by
      rw [phNumAt, if_pos hq']
    rw [hR]
    have := cntEmpty_strict scans hqq h
    omega
  | case2 scans base q' hq' ih =>
    intro q hqq h
    have hdrop : (scans.drop 100000)[q' - 100000]? = some "" := by
      rw [List.getElem?_drop]
      have : 100000 + (q' - 100000) = q' := by omega
      rw [this]
      exact h
    have hR : phNumAt scans base q' =
        phNumAt (scans.drop 100000) (base + 100000) (q' - 100000) := by
      rw [phNumAt]
      exact if_neg hq'
    by_cases hq : q < 100000
    · have hL := phNumAt_le_chunk scans base q hq
      have hgt := phNumAt_gt_base (scans.drop 100000) (base + 100000) (q' - 100000) hdrop
      omega
    · have hL : phNumAt scans base q =
          phNumAt (scans.drop 100000) (base + 100000) (q - 100000) := by
        rw [phNumAt]
        exact if_neg hq
      have := ih (q - 100000) (by omega) hdrop
      omega

theorem dedupKeys_allEmpty_ne (p : DDParams) (cols : List String)
    (recs : List (List Cell)) (base q q' : Nat) (r r' : List Cell) (hlt : q < q')
    (h : recs[q]? = some r) (h' : recs[q']? = some r')
    (he : dedupScan p cols r = "") (he' : dedupScan p cols r' = "")
    {kq kq' : String}
    (hk : (dedupKeysFrom p cols recs base)[q]? = some kq)
    (hk' : (dedupKeysFrom p cols recs base)[q']? = some kq') : kq ≠ kq' := by
  rw [dedupKeysFrom_getElem_empty p cols recs base q r h he] at hk
  rw [dedupKeysFrom_getElem_empty p cols recs base q' r' h' he'] at hk'
  have hs' : (recs.map (dedupScan p cols))[q']? = some "" := by
    simp [h', he']
  have hmono := phNumAt_strictMono (recs.map (dedupScan p cols)) base q' q hlt hs'
  have hkq := Option.some.inj hk
  have hkq' := Option.some.inj hk'
  rw [← hkq, ← hkq']
  exact qual_ph_ne _ _ (by omega)

/-! ## remove_duplicates lemmas -/

theorem lt_length_of_getElem_some {α : Type} {l : List α} {i : Nat} {a : α}
    (h : l[i]? = some a) : i < l.length := by
  by_contra hc
  rw [List.getElem?_eq_none (by omega)] at h
  exact Option.noConfusion h

theorem filterMap_getElem_bind {α β : Type} (f : α → Option β) :
    ∀ l : List α, (∀ x ∈ l, (f x).isSome) → ∀ i : Nat,
      (l.filterMap f)[i]? = (l[i]?).bind f := by
  intro l
  induction l with
  | nil => intro _ i; simp
  | cons a t ih =>
    intro h i
    obtain ⟨b, hb⟩ := Option.isSome_iff_exists.mp (h a (by simp))
    rw [List.filterMap_cons]
    simp only [hb]
    cases i with
    | zero => simp [hb]
    | succ i' =>
      simp only [List.getElem?_cons_succ]
      exact ih (fun x hx => h x (by simp [hx])) i'

theorem createDedupKeys_length (p : DDParams) (df : DF) :
    (createDedupKeys p df).length = df.rows.length :=
  dedupKeysFrom_length p df.cols df.rows 0

theorem withDedupKeyCol_rows_length (p : DDParams) (df : DF) :
    (withDedupKeyCol p df).rows.length = df.rows.length := by
  simp [withDedupKeyCol, createDedupKeys_length]

theorem withDedupKeyCol_getElem (p : DDParams) (df : DF) (q : Nat) (rq : List Cell)
    (kq : String) (hr : df.rows[q]? = some rq) (hk : (createDedupKeys p df)[q]? = some kq) :
    (withDedupKeyCol p df).rows[q]? = some (rq ++ [some kq]) := by
  show (List.zipWith (fun r k => r ++ [some k]) df.rows (createDedupKeys p df))[q]? = _
  rw [List.getElem?_zipWith (f := fun r k => r ++ [some k]), hr, hk]

theorem sortedKeys_mem (p : DDParams) (df : DF) (k : String) :
    k ∈ (createDedupKeys p df).dedup.insertionSort (fun a b => strLeB a b = true) ↔ k ∈ createDedupKeys p df :=
  (List.perm_insertionSort (fun a b => strLeB a b = true) (createDedupKeys p df).dedup).mem_iff.trans List.mem_dedup

theorem sortedKeys_nodup (p : DDParams) (df : DF) :
    ((createDedupKeys p df).dedup.insertionSort (fun a b => strLeB a b = true)).Nodup :=
  ((List.perm_insertionSort (fun a b => strLeB a b = true) (createDedupKeys p df).dedup).nodup_iff).mpr
    (List.nodup_dedup _)

theorem removeDuplicates_chain (p : DDParams) (df : DF) (i : Nat) (k : String)
    (hk : ((createDedupKeys p df).dedup.insertionSort (fun a b => strLeB a b = true))[i]? = some k) :
    ∃ (n : Nat) (rn : List Cell),
      idxOf? k (createDedupKeys p df) = some n ∧ df.rows[n]? = some rn ∧
      (removeDuplicates p df).rows[i]? = some (rn ++ [some k]) := by
  have hmem : k ∈ createDedupKeys p df := (sortedKeys_mem p df k).mp (mem_of_getElem_some hk)
  obtain ⟨n, hn⟩ := idxOf?_of_mem hmem
  have hkn : (createDedupKeys p df)[n]? = some k := (idxOf?_getElem hn).1
  have hnlen : n < df.rows.length := by
    have := lt_length_of_getElem_some hkn
    rwa [createDedupKeys_length] at this
  obtain ⟨rn, hrn⟩ : ∃ rn, df.rows[n]? = some rn := by
    rw [List.getElem?_eq_getElem hnlen]
    exact ⟨_, rfl⟩
  refine ⟨n, rn, hn, hrn, ?_⟩
  have hsome1 : ∀ x ∈ (createDedupKeys p df).dedup.insertionSort (fun a b => strLeB a b = true),
      (idxOf? x (createDedupKeys p df)).isSome := by
    intro x hx
    obtain ⟨m, hm⟩ := idxOf?_of_mem ((sortedKeys_mem p df x).mp hx)
    simp [hm]
  have hsome2 : ∀ m ∈ ((createDedupKeys p df).dedup.insertionSort (fun a b => strLeB a b = true)).filterMap
      (fun k => idxOf? k (createDedupKeys p df)), ((withDedupKeyCol p df).rows[m]?).isSome := by
    intro m hm
    obtain ⟨x, _, hx2⟩ := List.mem_filterMap.mp hm
    have hxm := (idxOf?_getElem hx2).1
    have : m < (withDedupKeyCol p df).rows.length := by
      rw [withDedupKeyCol_rows_length]
      have := lt_length_of_getElem_some hxm
      rwa [createDedupKeys_length] at this
    rw [List.getElem?_eq_getElem this]
    rfl
  show ((((createDedupKeys p df).dedup.insertionSort (fun a b => strLeB a b = true)).filterMap
      (fun k => idxOf? k (createDedupKeys p df))).filterMap
      ((withDedupKeyCol p df).rows[·]?))[i]? = _
  rw [filterMap_getElem_bind _ _ hsome2 i, filterMap_getElem_bind _ _ hsome1 i, hk]
  simp only [Option.bind_some, hn, Option.some_bind]
  exact withDedupKeyCol_getElem p df n rn k hrn hkn

theorem removeDuplicates_chain_rev (p : DDParams) (df : DF) (i : Nat) (ri : List Cell)
    (h : (removeDuplicates p df).rows[i]? = some ri) :
    ∃ (k : String) (n : Nat) (rn : List Cell),
      ((createDedupKeys p df).dedup.insertionSort (fun a b => strLeB a b = true))[i]? = some k ∧
      idxOf? k (createDedupKeys p df) = some n ∧ df.rows[n]? = some rn ∧
      ri = rn ++ [some k] := by
  cases hk : ((createDedupKeys p df).dedup.insertionSort (fun a b => strLeB a b = true))[i]? with
  | none =>
    exfalso
    have hlen : i < ((createDedupKeys p df).dedup.insertionSort (fun a b => strLeB a b = true)).length := by
      have h1 := lt_length_of_getElem_some h
      have h2 : (removeDuplicates p df).rows.length ≤
          ((createDedupKeys p df).dedup.insertionSort (fun a b => strLeB a b = true)).length := by
        show ((((createDedupKeys p df).dedup.insertionSort (fun a b => strLeB a b = true)).filterMap
            (fun k => idxOf? k (createDedupKeys p df))).filterMap
            ((withDedupKeyCol p df).rows[·]?)).length ≤ _
        calc _ ≤ (((createDedupKeys p df).dedup.insertionSort (fun a b => strLeB a b = true)).filterMap
                (fun k => idxOf? k (createDedupKeys p df))).length :=
              List.length_filterMap_le _ _
          _ ≤ _ := List.length_filterMap_le _ _
      omega
    rw [List.getElem?_eq_getElem hlen] at hk
    exact Option.noConfusion hk
  | some k =>
    obtain ⟨n, rn, hn, hrn, hout⟩ := removeDuplicates_chain p df i k hk
    rw [h] at hout
    exact ⟨k, n, rn, rfl, hn, hrn, Option.some.inj hout⟩

/-! ## Claims about the Deduplicator -/

/-- Claim C7: after `DerivOneDeduplicator.remove_duplicates`, no two distinct
surviving records share a deduplication identity; every surviving row is the
member of its Identity Group with the lowest original ordinal position
(carrying that identity in the appended `deduplication_key` column); and every
Identity Group of the input keeps exactly one representative — all other
members are dropped. -/
theorem claim_C7 (p : DDParams) (df : DF) :
    (∀ (i j : Nat) (ri rj : List Cell),
        (removeDuplicates p df).rows[i]? = some ri →
        (removeDuplicates p df).rows[j]? = some rj → i ≠ j →
        lastCell ri ≠ lastCell rj) ∧
    (∀ (i : Nat) (ri : List Cell), (removeDuplicates p df).rows[i]? = some ri →
        ∃ (q : Nat) (rq : List Cell) (kq : String),
          df.rows[q]? = some rq ∧ (createDedupKeys p df)[q]? = some kq ∧
          ri = rq ++ [some kq] ∧
          ∀ j : Nat, j < q → (createDedupKeys p df)[j]? ≠ some kq) ∧
    (∀ (q : Nat) (kq : String), (createDedupKeys p df)[q]? = some kq →
        ∃ (i : Nat) (ri : List Cell), (removeDuplicates p df).rows[i]? = some ri ∧
          lastCell ri = some kq) := by
  refine ⟨?_, ?_, ?_⟩
  · intro i j ri rj hi hj hij
    obtain ⟨ki, ni, rni, hki, hni, hrni, hri⟩ := removeDuplicates_chain_rev p df i ri hi
    obtain ⟨kj, nj, rnj, hkj, hnj, hrnj, hrj⟩ := removeDuplicates_chain_rev p df j rj hj
    have hlci : lastCell ri = some ki := by
      rw [hri, lastCell, List.getLast?_concat]
      rfl
    have hlcj : lastCell rj = some kj := by
      rw [hrj, lastCell, List.getLast?_concat]
      rfl
    rw [hlci, hlcj]
    intro hc
    have hkk : ki = kj := Option.some.inj hc
    subst hkk
    exact hij (List.getElem?_inj (lt_length_of_getElem_some hki)
      (sortedKeys_nodup p df) (hki.trans hkj.symm))
  · intro i ri hi
    obtain ⟨k, n, rn, hk, hn, hrn, hri⟩ := removeDuplicates_chain_rev p df i ri hi
    obtain ⟨hkn, hmin⟩ := idxOf?_getElem hn
    exact ⟨n, rn, k, hrn, hkn, hri, fun j hj hc => hmin j hj hc⟩
  · intro q kq hq
    have hmem : kq ∈ (createDedupKeys p df).dedup.insertionSort (fun a b => strLeB a b = true) :=
      (sortedKeys_mem p df kq).mpr (mem_of_getElem_some hq)
    obtain ⟨i, hi⟩ := exists_getElem_of_mem hmem
    obtain ⟨n, rn, hn, hrn, hout⟩ := removeDuplicates_chain p df i kq hi
    refine ⟨i, rn ++ [some kq], hout, ?_⟩
    rw [lastCell, List.getLast?_concat]
    rfl

/-- Claim C7 witness: the distinct-identity property at a concrete instance
(two groups "a"/"b" with duplicates; survivors carry distinct keys). -/
theorem claim_C7_witness :
    lastCell [some "a", some "", some "", some "a"] ≠
      lastCell [some "b", some "", some "", some "b"] :=
  (claim_C7 ⟨false, "H", "LEI"⟩ (mkDF ["H", "UTI Value", "USI Value"]
      [[some "b", some "", some ""], [some "a", some "", some ""],
       [some "b", some "x", some ""], [some "a", some "", some ""]])).1
    0 1 [some "a", some "", some "", some "a"] [some "b", some "", some "", some "b"]
    (by decide) (by decide) (by decide)

/-- Claim C6 counterexample: the "both all-empty records survive" part fails
as stated.  In this dataset record 0 carries the literal UTI value
"missing_placeholder2", records 1 and 2 have every candidate identity field
empty; record 2 receives the synthetic placeholder "missing_placeholder2",
collides with record 0's genuine identity, and is dropped — no surviving row
restricts to the all-empty record with that placeholder, even though records
1 and 2 are two all-empty records of which the claim asserts both survive. -/
theorem claim_C6_counterexample :
    dedupScan ⟨false, "H", "LEI"⟩ ["H", "UTI Value", "USI Value"]
      [some "", some "", some ""] = "" ∧
    (mkDF ["H", "UTI Value", "USI Value"]
      [[some "", some "missing_placeholder2", some ""],
       [some "", some "", some ""],
       [some "", some "", some ""]]).rows[1]? = some [some "", some "", some ""] ∧
    (mkDF ["H", "UTI Value", "USI Value"]
      [[some "", some "missing_placeholder2", some ""],
       [some "", some "", some ""],
       [some "", some "", some ""]]).rows[2]? = some [some "", some "", some ""] ∧
    (createDedupKeys ⟨false, "H", "LEI"⟩ (mkDF ["H", "UTI Value", "USI Value"]
      [[some "", some "missing_placeholder2", some ""],
       [some "", some "", some ""],
       [some "", some "", some ""]]))[2]? = some "missing_placeholder2" ∧
    ∀ (i : Nat) (ri : List Cell),
      (removeDuplicates ⟨false, "H", "LEI"⟩ (mkDF ["H", "UTI Value", "USI Value"]
        [[some "", some "missing_placeholder2", some ""],
         [some "", some "", some ""],
         [some "", some "", some ""]])).rows[i]? = some ri →
      ri ≠ [some "", some "", some "", some "missing_placeholder2"] := by
  refine ⟨by decide, by decide, by decide, by decide, ?_⟩
  intro i ri h
  have hrows : (removeDuplicates ⟨false, "H", "LEI"⟩ (mkDF ["H", "UTI Value", "USI Value"]
      [[some "", some "missing_placeholder2", some ""],
       [some "", some "", some ""],
       [some "", some "", some ""]])).rows =
      [[some "", some "", some "", some "missing_placeholder1"],
       [some "", some "missing_placeholder2", some "", some "missing_placeholder2"]] := by
    decide
  rw [hrows] at h
  match i with
  | 0 =>
    simp at h
    rw [← h]
    decide
  | 1 =>
    simp at h
    rw [← h]
    decide
  | (n + 2) =>
    simp at h

/-- Claim C6 (amended): a record's deduplication key is its qualifier followed
by the first non-empty stripped candidate (`dedupScan`); when every candidate
is empty it is the qualifier followed by the synthetic placeholder numbered by
the record's chunk offset and rank among the all-empty records of its chunk
(`phNumAt`); any two all-empty records receive distinct keys (and hence are
never merged with each other); and a record whose key first occurs at its own
position survives deduplication. -/
theorem claim_C6_amended (p : DDParams) (df : DF) :
    (∀ (q : Nat) (r : List Cell), df.rows[q]? = some r → dedupScan p df.cols r ≠ "" →
        (createDedupKeys p df)[q]? =
          some (dedupQual p df.cols r ++ dedupScan p df.cols r)) ∧
    (∀ (q : Nat) (r : List Cell), df.rows[q]? = some r → dedupScan p df.cols r = "" →
        (createDedupKeys p df)[q]? =
          some (dedupQual p df.cols r ++
            phStr (phNumAt (df.rows.map (dedupScan p df.cols)) 0 q))) ∧
    (∀ (q q' : Nat) (r r' : List Cell) (kq kq' : String), q ≠ q' →
        df.rows[q]? = some r → df.rows[q']? = some r' →
        dedupScan p df.cols r = "" → dedupScan p df.cols r' = "" →
        (createDedupKeys p df)[q]? = some kq →
        (createDedupKeys p df)[q']? = some kq' → kq ≠ kq') ∧
    (∀ (q : Nat) (rq : List Cell) (kq : String), df.rows[q]? = some rq →
        (createDedupKeys p df)[q]? = some kq →
        idxOf? kq (createDedupKeys p df) = some q →
        ∃ i : Nat, (removeDuplicates p df).rows[i]? = some (rq ++ [some kq])) := by
  refine ⟨?_, ?_, ?_, ?_⟩
  · intro q r h hne
    exact dedupKeysFrom_getElem_nonempty p df.cols df.rows 0 q r h hne
  · intro q r h he
    exact dedupKeysFrom_getElem_empty p df.cols df.rows 0 q r h he
  · intro q q' r r' kq kq' hne h h' he he' hk hk'
    rcases Nat.lt_or_ge q q' with hlt | hge
    · exact dedupKeys_allEmpty_ne p df.cols df.rows 0 q q' r r' hlt h h' he he' hk hk'
    · have hlt : q' < q := by omega
      exact (dedupKeys_allEmpty_ne p df.cols df.rows 0 q' q r' r hlt h' h he' he hk' hk).symm
  · intro q rq kq hrq hkq hfirst
    have hmem : kq ∈ (createDedupKeys p df).dedup.insertionSort (fun a b => strLeB a b = true) :=
      (sortedKeys_mem p df kq).mpr (mem_of_getElem_some hkq)
    obtain ⟨i, hi⟩ := exists_getElem_of_mem hmem
    obtain ⟨n, rn, hn, hrn, hout⟩ := removeDuplicates_chain p df i kq hi
    have hnq : n = q := by
      rw [hfirst] at hn
      exact (Option.some.inj hn).symm
    subst hnq
    rw [hrq] at hrn
    rw [← Option.some.inj hrn] at hout
    exact ⟨i, hout⟩

/-- Claim C6 witness: at a concrete two-record all-empty dataset the two
placeholder keys exist, differ, and both records survive. -/
theorem claim_C6_amended_witness :
    (createDedupKeys ⟨false, "H", "LEI"⟩ (mkDF ["H", "UTI Value", "USI Value"]
      [[some "", some "", some ""], [some "", some "", some ""]]))[0]? =
        some (dedupQual ⟨false, "H", "LEI"⟩ ["H", "UTI Value", "USI Value"]
          [some "", some "", some ""] ++
          phStr (phNumAt ["", ""] 0 0)) ∧
    ("missing_placeholder1" : String) ≠ "missing_placeholder2" ∧
    (∃ i : Nat, (removeDuplicates ⟨false, "H", "LEI"⟩ (mkDF ["H", "UTI Value", "USI Value"]
      [[some "", some "", some ""], [some "", some "", some ""]])).rows[i]? =
        some ([some "", some "", some ""] ++ [some "missing_placeholder1"])) := by
  refine ⟨?_, ?_, ?_⟩
  · have h := (claim_C6_amended ⟨false, "H", "LEI"⟩ (mkDF ["H", "UTI Value", "USI Value"]
      [[some "", some "", some ""], [some "", some "", some ""]])).2.1
      0 [some "", some "", some ""] (by decide) (by decide)
    exact h
  · exact (claim_C6_amended ⟨false, "H", "LEI"⟩ (mkDF ["H", "UTI Value", "USI Value"]
      [[some "", some "", some ""], [some "", some "", some ""]])).2.2.1
      0 1 [some "", some "", some ""] [some "", some "", some ""]
      "missing_placeholder1" "missing_placeholder2"
      (by decide) (by decide) (by decide) (by decide) (by decide) (by decide) (by decide)
  · exact (claim_C6_amended ⟨false, "H", "LEI"⟩ (mkDF ["H", "UTI Value", "USI Value"]
      [[some "", some "", some ""], [some "", some "", some ""]])).2.2.2
      0 [some "", some "", some ""] "missing_placeholder1"
      (by decide) (by decide) (by decide)

/-- Claim C10: for the equity asset classes the deduplication key is prefixed
with the UTI Prefix exactly when the (stripped) harmonized UTI value is
non-empty and with the USI Prefix otherwise; in particular a record whose
identity falls back to the UTI Value (harmonized UTI empty) is prefixed with
the USI Prefix, not the UTI Prefix.  Placeholder keys are prefixed the same
way. -/
theorem claim_C10 (hutiCol leiCol : String) (df : DF) :
    (∀ (q : Nat) (r : List Cell), df.rows[q]? = some r →
        dedupScan ⟨true, hutiCol, leiCol⟩ df.cols r ≠ "" →
        (createDedupKeys ⟨true, hutiCol, leiCol⟩ df)[q]? =
          some ((if pyStrip (toStrC (rowCellOf df.cols r hutiCol)) ≠ "" then
                   toStrC (rowCellOf df.cols r "UTI Prefix")
                 else toStrC (rowCellOf df.cols r "USI Prefix")) ++
            dedupScan ⟨true, hutiCol, leiCol⟩ df.cols r)) ∧
    (∀ (q : Nat) (r : List Cell), df.rows[q]? = some r →
        dedupScan ⟨true, hutiCol, leiCol⟩ df.cols r = "" →
        ∃ n : Nat, (createDedupKeys ⟨true, hutiCol, leiCol⟩ df)[q]? =
          some ((if pyStrip (toStrC (rowCellOf df.cols r hutiCol)) ≠ "" then
                   toStrC (rowCellOf df.cols r "UTI Prefix")
                 else toStrC (rowCellOf df.cols r "USI Prefix")) ++ phStr n)) ∧
    (∀ (q : Nat) (r : List Cell), df.rows[q]? = some r →
        pyStrip (toStrC (rowCellOf df.cols r hutiCol)) = "" →
        pyStrip (toStrC (rowCellOf df.cols r "UTI Value")) ≠ "" →
        (createDedupKeys ⟨true, hutiCol, leiCol⟩ df)[q]? =
          some (toStrC (rowCellOf df.cols r "USI Prefix") ++
            pyStrip (toStrC (rowCellOf df.cols r "UTI Value")))) := by
  have hqual : ∀ r : List Cell, dedupQual ⟨true, hutiCol, leiCol⟩ df.cols r =
      (if pyStrip (toStrC (rowCellOf df.cols r hutiCol)) ≠ "" then
        toStrC (rowCellOf df.cols r "UTI Prefix")
      else toStrC (rowCellOf df.cols r "USI Prefix")) := by
    intro r
    simp [dedupQual]
  refine ⟨?_, ?_, ?_⟩
  · intro q r h hne
    rw [← hqual r]
    exact dedupKeysFrom_getElem_nonempty ⟨true, hutiCol, leiCol⟩ df.cols df.rows 0 q r h hne
  · intro q r h he
    refine ⟨phNumAt (df.rows.map (dedupScan ⟨true, hutiCol, leiCol⟩ df.cols)) 0 q, ?_⟩
    rw [← hqual r]
    exact dedupKeysFrom_getElem_empty ⟨true, hutiCol, leiCol⟩ df.cols df.rows 0 q r h he
  · intro q r h hh hu
    have hscan : dedupScan ⟨true, hutiCol, leiCol⟩ df.cols r =
        pyStrip (toStrC (rowCellOf df.cols r "UTI Value")) := by
      simp only [dedupScan, hh]
      simp [hu]
    have hne : dedupScan ⟨true, hutiCol, leiCol⟩ df.cols r ≠ "" := by
      rw [hscan]
      exact hu
    have := dedupKeysFrom_getElem_nonempty ⟨true, hutiCol, leiCol⟩ df.cols df.rows 0 q r h hne
    rw [hscan] at this
    have hq2 : dedupQual ⟨true, hutiCol, leiCol⟩ df.cols r =
        toStrC (rowCellOf df.cols r "USI Prefix") := by
      rw [hqual r, if_neg (by simp [hh])]
    rw [hq2] at this
    exact this

/-- Claim C10 witness: a concrete equity record with empty harmonized UTI and
non-empty UTI value gets the USI Prefix prepended. -/
theorem claim_C10_witness :
    (createDedupKeys ⟨true, "H", "LEI"⟩ (mkDF
      ["H", "UTI Value", "USI Value", "UTI Prefix", "USI Prefix"]
      [[some "", some "uti1", some "", some "UTIP", some "USIP"]]))[0]? =
    some (toStrC (rowCellOf ["H", "UTI Value", "USI Value", "UTI Prefix", "USI Prefix"]
        [some "", some "uti1", some "", some "UTIP", some "USIP"] "USI Prefix") ++
      pyStrip (toStrC (rowCellOf ["H", "UTI Value", "USI Value", "UTI Prefix", "USI Prefix"]
        [some "", some "uti1", some "", some "UTIP", some "USIP"] "UTI Value"))) :=
  (claim_C10 "H" "LEI" (mkDF ["H", "UTI Value", "USI Value", "UTI Prefix", "USI Prefix"]
      [[some "", some "uti1", some "", some "UTIP", some "USIP"]])).2.2
    0 [some "", some "uti1", some "", some "UTIP", some "USIP"]
    (by decide) (by decide) (by decide)

/-! ## Progressive Matcher lemmas -/

theorem passLoop_acc_grows (st : MState) :
    ∀ (ks : List (String × String)) (lm rm : List Nat) (acc : List DF)
      (lm' rm' : List Nat) (mdfs : List DF),
      passLoop st ks lm rm acc = some (lm', rm', mdfs) → ∃ t : List DF, mdfs = acc ++ t := by
  intro ks
  induction ks with
  | nil =>
    intro lm rm acc lm' rm' mdfs h
    simp only [passLoop] at h
    have := Option.some.inj h
    rw [Prod.mk.injEq, Prod.mk.injEq] at this
    exact ⟨[], by rw [← this.2.2]; simp⟩
  | cons k rest ih =>
    intro lm rm acc lm' rm' mdfs h
    simp only [passLoop] at h
    split at h
    · have := Option.some.inj h
      rw [Prod.mk.injEq, Prod.mk.injEq] at this
      exact ⟨[], by rw [← this.2.2]; simp⟩
    · split at h
      · exact absurd h (by simp)
      · rename_i ixs iys mdf heq
        split at h
        · obtain ⟨t, ht⟩ := ih _ _ _ _ _ _ h
          exact ⟨mdf :: t, by rw [ht]; simp⟩
        · exact ih _ _ _ _ _ _ h

theorem passLoop_lm_of_acc (st : MState) :
    ∀ (ks : List (String × String)) (lm rm : List Nat) (acc : List DF)
      (lm' rm' : List Nat) (mdfs : List DF),
      passLoop st ks lm rm acc = some (lm', rm', mdfs) → mdfs = acc → lm' = lm := by
  intro ks
  induction ks with
  | nil =>
    intro lm rm acc lm' rm' mdfs h _
    have := Option.some.inj h
    rw [Prod.mk.injEq, Prod.mk.injEq] at this
    exact this.1.symm
  | cons k rest ih =>
    intro lm rm acc lm' rm' mdfs h hacc
    simp only [passLoop] at h
    split at h
    · have := Option.some.inj h
      rw [Prod.mk.injEq, Prod.mk.injEq] at this
      exact this.1.symm
    · split at h
      · exact absurd h (by simp)
      · split at h
        · exfalso
          obtain ⟨t, ht⟩ := passLoop_acc_grows st _ _ _ _ _ _ _ h
          rw [hacc] at ht
          have := congrArg List.length ht
          simp only [List.length_append, List.length_cons, List.length_nil] at this
          omega
        · exact ih _ _ _ _ _ _ h hacc

theorem mergeFinish_snd (st : MState) (rt : RetType) (rm : List Nat) (res : List DF) :
    (mergeFinish st rt rm res).map (fun pr => pr.2) = some
      ⟨⟨st.leftColumns, st.dfLeft.idx, st.dfLeft.rows⟩,
       ⟨st.rightColumns, st.dfRight.idx, st.dfRight.rows⟩,
       st.leftPre, st.rightPre, st.leftColumns, st.rightColumns, st.onKeysList⟩ := by
  simp only [mergeFinish]
  repeat' split
  all_goals rfl

theorem unmatchedPart_nil_rows (df : DF) (hwf : df.idx.length = df.rows.length) :
    (unmatchedPart df []).rows = df.rows := by
  simp only [unmatchedPart, List.contains_nil, Bool.not_false, List.filter_true]
  exact List.map_snd_zip df.idx df.rows (by omega)

/-! ## Claims about the Progressive Matcher -/

/-- Claim C4 counterexample: with an empty left dataset, a non-empty right
prefix and return_type 'full', merge_data takes the early return of lines
125–131 and hands back the inputs with their column names still prefixed —
the right input dataset is changed after merge_data returns (its column is
"R_k" instead of "k"). -/
theorem claim_C4_counterexample :
    (mergeData (initMerger (mkDF ["k"] []) (mkDF ["k"] [[some "V"]]) "L_" "R_"
        [("k", "k")]) RetType.full).map (fun r => r.2.dfRight) =
      some ⟨["R_k"], [0], [[some "V"]]⟩ ∧
    (⟨["R_k"], [0], [[some "V"]]⟩ : DF) ≠ mkDF ["k"] [[some "V"]] := by
  constructor
  · decide
  · decide

/-- Claim C4 (amended): the Progressive Matcher leaves both input datasets
unchanged whenever merge_data returns and either the left dataset is
non-empty or return_type is 'right' or 'inner' (prefixes are then restored by
lines 141–143 and row data is never mutated); on the remaining path — empty
left input with return_type 'left' or 'full' — the early return skips the
restore, which is what the counterexample exhibits. -/
theorem claim_C4_amended (dfL dfR : DF) (lp rp : String)
    (keys : List (String × String)) (rt : RetType)
    (hwf : dfL.idx.length = dfL.rows.length)
    (hcase : dfL.rows ≠ [] ∨ rt = RetType.right ∨ rt = RetType.inner)
    (res : DF) (st' : MState)
    (h : mergeData (initMerger dfL dfR lp rp keys) rt = some (res, st')) :
    st'.dfLeft = dfL ∧ st'.dfRight = dfR := by
  have hrestore : ∀ (rm : List Nat) (res0 : List DF) (out : DF) (st1 : MState),
      mergeFinish (initMerger dfL dfR lp rp keys) rt rm res0 = some (out, st1) →
      st1.dfLeft = dfL ∧ st1.dfRight = dfR := by
    intro rm res0 out st1 hmf
    have hsnd := mergeFinish_snd (initMerger dfL dfR lp rp keys) rt rm res0
    rw [hmf] at hsnd
    simp only [Option.map_some'] at hsnd
    have heq := Option.some.inj hsnd
    rw [heq]
    exact ⟨rfl, rfl⟩
  cases hpl : passLoop (initMerger dfL dfR lp rp keys)
      (initMerger dfL dfR lp rp keys).onKeysList [] [] [] with
  | none =>
    simp only [mergeData, hpl] at h
    exact Option.noConfusion h
  | some triple =>
    obtain ⟨lm, rm, mdfs⟩ := triple
    simp only [mergeData, hpl] at h
    by_cases hrt : rt = RetType.left ∨ rt = RetType.full
    · rw [if_pos hrt] at h
      by_cases hlu : (unmatchedPart (initMerger dfL dfR lp rp keys).dfLeft lm).rows ≠ []
      · rw [if_pos hlu] at h
        cases hbo : buildLeftOnly (initMerger dfL dfR lp rp keys)
            (unmatchedPart (initMerger dfL dfR lp rp keys).dfLeft lm) with
        | none =>
          rw [hbo] at h
          exact absurd h (by simp)
        | some dfU =>
          rw [hbo] at h
          exact hrestore _ _ _ _ h
      · push_neg at hlu
        rw [if_neg (by simp [hlu])] at h
        by_cases hmd : mdfs = []
        · exfalso
          have hlm : lm = [] := passLoop_lm_of_acc _ _ _ _ _ _ _ _ hpl hmd
          rw [hlm] at hlu
          have : (unmatchedPart (initMerger dfL dfR lp rp keys).dfLeft []).rows = dfL.rows :=
            unmatchedPart_nil_rows _ hwf
          rw [this] at hlu
          rcases hcase with hne | hr | hr
          · exact hne hlu
          · rcases hrt with h1 | h1 <;> rw [hr] at h1 <;> exact RetType.noConfusion h1
          · rcases hrt with h1 | h1 <;> rw [hr] at h1 <;> exact RetType.noConfusion h1
        · rw [if_neg hmd] at h
          exact hrestore _ _ _ _ h
    · rw [if_neg hrt] at h
      exact hrestore _ _ _ _ h

/-- Claim C4 witness: at a concrete non-empty left input the final state
returned together with the merge result carries both inputs unchanged. -/
theorem claim_C4_witness :
    ∃ (res : DF) (st' : MState),
      mergeData (initMerger (mkDF ["k"] [[some "V"]]) (mkDF ["k"] []) "L_" "R_"
        [("k", "k")]) RetType.full = some (res, st') ∧
      st'.dfLeft = mkDF ["k"] [[some "V"]] ∧ st'.dfRight = mkDF ["k"] [] := by
  cases hm : mergeData (initMerger (mkDF ["k"] [[some "V"]]) (mkDF ["k"] []) "L_" "R_"
      [("k", "k")]) RetType.full with
  | none => exact absurd hm (by decide)
  | some pr =>
    obtain ⟨res, st'⟩ := pr
    refine ⟨res, st', rfl, ?_⟩
    exact claim_C4_amended (mkDF ["k"] [[some "V"]]) (mkDF ["k"] []) "L_" "R_"
      [("k", "k")] RetType.full (by decide) (Or.inl (by decide)) res st' hm

/-- Claim C1 failing input: key-pair priority list (k1,k1),(k2,k2),(k3,k3);
left record 1 ("Z","B","C") matches right record 1 ("W","B","C") on k2 in the
second pass, but the pass stores the temporary position 0 — the original
position of the already-matched record 0 — as consumed, so both records stay
in the unconsumed pools and match again on k3: the output of
return_type='inner' holds three matched rows, of which the second and third
both combine left record 1 and right record 1, violating at-most-one-match. -/
theorem claim_C1_eval :
    (mergeData (initMerger
        (mkDF ["k1", "k2", "k3"]
          [[some "A", some "P1", some "Q1"], [some "Z", some "B", some "C"]])
        (mkDF ["k1", "k2", "k3"]
          [[some "A", some "P2", some "Q2"], [some "W", some "B", some "C"]])
        "L_" "R_" [("k1", "k1"), ("k2", "k2"), ("k3", "k3")]) RetType.inner).map
      (fun r => r.1.rows) =
    some [[some "A", some "P1", some "Q1", some "A", some "P2", some "Q2", some "matched"],
          [some "Z", some "B", some "C", some "W", some "B", some "C", some "matched"],
          [some "Z", some "B", some "C", some "W", some "B", some "C", some "matched"]] := by
  decide

/-- Claim C2 failing input: one left record and one right record whose join
key is the empty string on both sides; pd.merge equality-joins the two empty
strings, so merge_data emits a matched row for them — the code contains no
explicit empty-key exclusion. -/
theorem claim_C2_eval :
    (mergeData (initMerger (mkDF ["k"] [[some ""]]) (mkDF ["k"] [[some ""]])
        "L_" "R_" [("k", "k")]) RetType.inner).map (fun r => r.1.rows) =
    some [[some "", some "", some "matched"]] := by
  decide

/-- Claim C3 failing input: empty left dataset, one right record,
return_type='full'.  The early return of lines 125–131 fires (its comment
claims it is for return_type 'left'), so the produced output has zero rows —
the right record appears in no output row instead of once as right_only, and
the right-only block is never reached. -/
theorem claim_C3_eval :
    (mkDF ["k"] [[some "V"]]).rows.length = 1 ∧
    (mergeData (initMerger (mkDF ["k"] []) (mkDF ["k"] [[some "V"]])
        "" "" [("k", "k")]) RetType.full).map (fun r => r.1.rows) = some [] := by
  constructor
  · decide
  · decide

/-! ## Key Generator lemmas -/

theorem keyGenRun_ok (p : KGParams) (df : DF) (out : DF)
    (h : keyGenRun p df = Except.ok out) :
    (requiredColumns p).filter (fun c => !df.cols.contains c) = [] ∧
    out = generateKeys p (cleanColumns p df) := by
  simp only [keyGenRun, kgInit] at h
  split at h
  · simp only [Except.map] at h
    exact absurd h (by simp)
  · rename_i hm
    simp only [Except.map] at h
    exact ⟨not_not.mp hm, (Except.ok.inj h).symm⟩

theorem required_mem_cols (p : KGParams) (df : DF)
    (hmiss : (requiredColumns p).filter (fun c => !df.cols.contains c) = [])
    (c : String) (hc : c ∈ requiredColumns p) : c ∈ df.cols := by
  have := List.filter_eq_nil_iff.mp hmiss c hc
  simp only [Bool.not_eq_true', Bool.not_eq_false] at this
  exact List.elem_iff.mp this

theorem cleanColumns_cols (p : KGParams) (df : DF) : (cleanColumns p df).cols = df.cols := rfl

theorem cleanColumns_idx (p : KGParams) (df : DF) : (cleanColumns p df).idx = df.idx := rfl

theorem cleanColumns_rows_length (p : KGParams) (df : DF) :
    (cleanColumns p df).rows.length = df.rows.length := by
  simp [cleanColumns]

theorem cleanColumns_wf (p : KGParams) (df : DF)
    (hwf : ∀ (q : Nat) (rq : List Cell), df.rows[q]? = some rq → rq.length = df.cols.length) :
    ∀ (q : Nat) (rq : List Cell), (cleanColumns p df).rows[q]? = some rq →
      rq.length = (cleanColumns p df).cols.length := by
  intro q rq h
  simp only [cleanColumns, List.getElem?_map] at h
  cases hr : df.rows[q]? with
  | none => rw [hr] at h; exact Option.noConfusion h
  | some rq0 =>
    rw [hr] at h
    have := hwf q rq0 hr
    simp only [Option.map_some'] at h
    rw [← Option.some.inj h]
    simp only [cleanColumns_cols]
    rw [List.length_zipWith]
    omega

theorem dfCell_cleanColumns_required (p : KGParams) (df : DF) (q : Nat) (c : String)
    (hc : c ∈ requiredColumns p) (hccol : c ∈ df.cols) (hq : q < df.rows.length)
    (hwf : ∀ (q : Nat) (rq : List Cell), df.rows[q]? = some rq → rq.length = df.cols.length) :
    dfCell (cleanColumns p df) q c = cleanCell (dfCell df q c) := by
  obtain ⟨rq, hr⟩ : ∃ rq, df.rows[q]? = some rq := by
    rw [List.getElem?_eq_getElem hq]
    exact ⟨_, rfl⟩
  have hcl : (cleanColumns p df).rows[q]? =
      some (List.zipWith (fun c v => if (requiredColumns p).contains c then cleanCell v else v)
        df.cols rq) := by
    simp [cleanColumns, hr]
  simp only [dfCell, hcl, hr, cleanColumns_cols]
  cases hidx : idxOf? c df.cols with
  | none => exact absurd (idxOf?_eq_none_iff.mp hidx) (by simp [hccol])
  | some j =>
    have hjc := (idxOf?_getElem hidx).1
    have hjlt : j < df.cols.length := lt_length_of_getElem_some hjc
    have hjr : j < rq.length := by rw [hwf q rq hr]; omega
    obtain ⟨v, hv⟩ : ∃ v, rq[j]? = some v := by
      rw [List.getElem?_eq_getElem hjr]
      exact ⟨_, rfl⟩
    have hz : (List.zipWith (fun c v => if (requiredColumns p).contains c then cleanCell v else v)
        df.cols rq)[j]? = some (if (requiredColumns p).contains c then cleanCell v else v) := by
      rw [List.getElem?_zipWith (f := fun c v => if (requiredColumns p).contains c then cleanCell v else v),
        hjc, hv]
    have hcont : (requiredColumns p).contains c = true := List.elem_iff.mpr hc
    simp only [rowCellOf, hidx, hz, hv, Option.getD_some]
    rw [if_pos hcont]

theorem dfCell_cleanColumns_not_required (p : KGParams) (df : DF) (q : Nat) (c : String)
    (hc : c ∉ requiredColumns p) :
    dfCell (cleanColumns p df) q c = dfCell df q c := by
  cases hr : df.rows[q]? with
  | none =>
    have : (cleanColumns p df).rows[q]? = none := by
      simp [cleanColumns, hr]
    simp [dfCell, this, hr]
  | some rq =>
    have hcl : (cleanColumns p df).rows[q]? =
        some (List.zipWith (fun c v => if (requiredColumns p).contains c then cleanCell v else v)
          df.cols rq) := by
      simp [cleanColumns, hr]
    simp only [dfCell, hcl, hr, cleanColumns_cols]
    cases hidx : idxOf? c df.cols with
    | none => simp [rowCellOf, hidx]
    | some j =>
      have hjc := (idxOf?_getElem hidx).1
      have hcont : (requiredColumns p).contains c = false := by
        rw [Bool.eq_false_iff]
        intro hcc
        exact hc (List.elem_iff.mp hcc)
      cases hv : rq[j]? with
      | none =>
        have hz : (List.zipWith (fun c v => if (requiredColumns p).contains c then cleanCell v else v)
            df.cols rq)[j]? = none := by
          rw [List.getElem?_zipWith (f := fun c v => if (requiredColumns p).contains c then cleanCell v else v),
            hjc, hv]
        simp only [rowCellOf, hidx, hz, hv]
      | some v =>
        have hz : (List.zipWith (fun c v => if (requiredColumns p).contains c then cleanCell v else v)
            df.cols rq)[j]? = some (if (requiredColumns p).contains c then cleanCell v else v) := by
          rw [List.getElem?_zipWith (f := fun c v => if (requiredColumns p).contains c then cleanCell v else v),
            hjc, hv]
        simp only [rowCellOf, hidx, hz, hv, Option.getD_some]
        rw [if_neg (by rw [hcont]; simp)]

theorem setCol_fresh (df : DF) (c : String) (vals : List Cell) (h : c ∉ df.cols) :
    setCol df c vals =
      ⟨df.cols ++ [c], df.idx, List.zipWith (fun r v => r ++ [v]) df.rows vals⟩ := by
  simp only [setCol, idxOf?_eq_none_iff.mpr h]

theorem rowCellOf_append_keep (cols ext : List String) (r rext : List Cell) (c : String)
    (hmem : c ∈ cols) (hlen : r.length = cols.length) :
    rowCellOf (cols ++ ext) (r ++ rext) c = rowCellOf cols r c := by
  obtain ⟨j, hj⟩ := idxOf?_of_mem hmem
  have happ := idxOf?_append_left ext hmem
  have hjlt : j < cols.length := lt_length_of_getElem_some (idxOf?_getElem hj).1
  simp only [rowCellOf, happ, hj]
  rw [List.getElem?_append, if_pos (by omega)]

theorem rowCellOf_append_last (cols : List String) (r : List Cell) (c : String) (v : Cell)
    (h : c ∉ cols) (hlen : r.length = cols.length) :
    rowCellOf (cols ++ [c]) (r ++ [v]) c = v := by
  have h0 : idxOf? c [c] = some 0 := by simp [idxOf?]
  have happ := idxOf?_append_right h h0
  simp only [rowCellOf, happ]
  rw [List.getElem?_append, if_neg (by omega)]
  simp [hlen]

theorem colVals_length (df : DF) (c : String) : (colVals df c).length = df.rows.length := by
  simp [colVals]

theorem catCells_length (a b : List Cell) : (catCells a b).length = min a.length b.length := by
  simp [catCells]

theorem colVals_getElem_dfCell (df : DF) (c : String) (q : Nat) (hq : q < df.rows.length) :
    (colVals df c)[q]? = some (dfCell df q c) := by
  obtain ⟨rq, hr⟩ : ∃ rq, df.rows[q]? = some rq := by
    rw [List.getElem?_eq_getElem hq]
    exact ⟨_, rfl⟩
  simp [colVals, dfCell, hr]

theorem catCells_getElem (a b : List Cell) (q : Nat) (x y : Cell)
    (ha : a[q]? = some x) (hb : b[q]? = some y) :
    (catCells a b)[q]? = some (some (toStrC x ++ toStrC y)) := by
  rw [catCells, List.getElem?_zipWith (f := fun x y => some (toStrC x ++ toStrC y)), ha, hb]

theorem setCol_step (d : DF) (c : String) (vals : List Cell)
    (hfresh : c ∉ d.cols) (hv : vals.length = d.rows.length)
    (hwf : ∀ (q : Nat) (rq : List Cell), d.rows[q]? = some rq → rq.length = d.cols.length) :
    (setCol d c vals).cols = d.cols ++ [c] ∧
    (setCol d c vals).idx = d.idx ∧
    (setCol d c vals).rows.length = d.rows.length ∧
    (∀ (q : Nat) (rq : List Cell), (setCol d c vals).rows[q]? = some rq →
      rq.length = (setCol d c vals).cols.length) ∧
    (∀ (q : Nat) (c' : String), c' ∈ d.cols → dfCell (setCol d c vals) q c' = dfCell d q c') ∧
    (∀ (q : Nat) (v : Cell), vals[q]? = some v → dfCell (setCol d c vals) q c = v) := by
  rw [setCol_fresh d c vals hfresh]
  refine ⟨rfl, rfl, by simp [List.length_zipWith]; omega, ?_, ?_, ?_⟩
  · intro q rq h
    simp only [List.getElem?_zipWith (f := fun r v => r ++ [v])] at h
    cases hr : d.rows[q]? with
    | none => rw [hr] at h; exact Option.noConfusion h
    | some rq0 =>
      cases hvq : vals[q]? with
      | none => rw [hr, hvq] at h; exact Option.noConfusion h
      | some v0 =>
        rw [hr, hvq] at h
        rw [← Option.some.inj h]
        simp only [List.length_append, List.length_cons, List.length_nil]
        rw [hwf q rq0 hr]
  · intro q c' hc'
    cases hr : d.rows[q]? with
    | none =>
      have hz : (List.zipWith (fun r v => r ++ [v]) d.rows vals)[q]? = none := by
        rw [List.getElem?_zipWith (f := fun r v => r ++ [v]), hr]
      simp [dfCell, hz, hr]
    | some rq0 =>
      obtain ⟨v0, hvq⟩ : ∃ v0, vals[q]? = some v0 := by
        have : q < vals.length := by rw [hv]; exact lt_length_of_getElem_some hr
        rw [List.getElem?_eq_getElem this]
        exact ⟨_, rfl⟩
      have hz : (List.zipWith (fun r v => r ++ [v]) d.rows vals)[q]? = some (rq0 ++ [v0]) := by
        rw [List.getElem?_zipWith (f := fun r v => r ++ [v]), hr, hvq]
      simp only [dfCell, hz, hr]
      exact rowCellOf_append_keep d.cols [c] rq0 [v0] c' hc' (hwf q rq0 hr)
  · intro q v hvq
    obtain ⟨rq0, hr⟩ : ∃ rq0, d.rows[q]? = some rq0 := by
      have : q < d.rows.length := by rw [← hv]; exact lt_length_of_getElem_some hvq
      rw [List.getElem?_eq_getElem this]
      exact ⟨_, rfl⟩
    have hz : (List.zipWith (fun r v => r ++ [v]) d.rows vals)[q]? = some (rq0 ++ [v]) := by
      rw [List.getElem?_zipWith (f := fun r v => r ++ [v]), hr, hvq]
    simp only [dfCell, hz]
    exact rowCellOf_append_last d.cols rq0 c v hfresh (hwf q rq0 hr)

theorem cleanKeyCol_cols (d : DF) (c : String) : (cleanKeyCol d c).cols = d.cols := by
  cases h : idxOf? c d.cols <;> simp [cleanKeyCol, h]

theorem cleanKeyCol_idx (d : DF) (c : String) : (cleanKeyCol d c).idx = d.idx := by
  cases h : idxOf? c d.cols <;> simp [cleanKeyCol, h]

theorem cleanKeyCol_rows_length (d : DF) (c : String) :
    (cleanKeyCol d c).rows.length = d.rows.length := by
  cases h : idxOf? c d.cols <;> simp [cleanKeyCol, h]

theorem cleanKeyCol_wf (d : DF) (c : String)
    (hwf : ∀ (q : Nat) (rq : List Cell), d.rows[q]? = some rq → rq.length = d.cols.length) :
    ∀ (q : Nat) (rq : List Cell), (cleanKeyCol d c).rows[q]? = some rq →
      rq.length = (cleanKeyCol d c).cols.length := by
  intro q rq h
  rw [cleanKeyCol_cols]
  cases hidx : idxOf? c d.cols with
  | none =>
    simp only [cleanKeyCol, hidx] at h
    exact hwf q rq h
  | some j =>
    simp only [cleanKeyCol, hidx, List.getElem?_map] at h
    cases hr : d.rows[q]? with
    | none => rw [hr] at h; exact Option.noConfusion h
    | some rq0 =>
      rw [hr] at h
      simp only [Option.map_some'] at h
      rw [← Option.some.inj h, List.length_set]
      exact hwf q rq0 hr

theorem dfCell_cleanKeyCol_other (d : DF) (c c' : String) (q : Nat) (hne : c' ≠ c) :
    dfCell (cleanKeyCol d c) q c' = dfCell d q c' := by
  cases hidx : idxOf? c d.cols with
  | none => simp [cleanKeyCol, hidx]
  | some j0 =>
    cases hr : d.rows[q]? with
    | none =>
      have hz : (cleanKeyCol d c).rows[q]? = none := by
        simp [cleanKeyCol, hidx, hr]
      simp [dfCell, hz, hr]
    | some rq =>
      have hz : (cleanKeyCol d c).rows[q]? =
          some (rq.set j0 (some (keyClean (toStrC ((rq[j0]?).getD none))))) := by
        simp [cleanKeyCol, hidx, hr]
      simp only [dfCell, hz, hr, cleanKeyCol_cols]
      cases hidx' : idxOf? c' d.cols with
      | none => simp [rowCellOf, hidx']
      | some j' =>
        have hne' : j0 ≠ j' := by
          intro hcc
          subst hcc
          have h1 := (idxOf?_getElem hidx).1
          have h2 := (idxOf?_getElem hidx').1
          rw [h1] at h2
          exact hne (Option.some.inj h2).symm
        simp only [rowCellOf, hidx']
        rw [List.getElem?_set_ne hne']

theorem dfCell_cleanKeyCol_self (d : DF) (c : String) (q : Nat)
    (hmem : c ∈ d.cols) (hq : q < d.rows.length)
    (hwf : ∀ (q : Nat) (rq : List Cell), d.rows[q]? = some rq → rq.length = d.cols.length) :
    dfCell (cleanKeyCol d c) q c = some (keyClean (toStrC (dfCell d q c))) := by
  obtain ⟨j0, hidx⟩ := idxOf?_of_mem hmem
  obtain ⟨rq, hr⟩ : ∃ rq, d.rows[q]? = some rq := by
    rw [List.getElem?_eq_getElem hq]
    exact ⟨_, rfl⟩
  have hz : (cleanKeyCol d c).rows[q]? =
      some (rq.set j0 (some (keyClean (toStrC ((rq[j0]?).getD none))))) := by
    simp [cleanKeyCol, hidx, hr]
  have hjlt : j0 < rq.length := by
    rw [hwf q rq hr]
    exact lt_length_of_getElem_some (idxOf?_getElem hidx).1
  simp only [dfCell, hz, hr, cleanKeyCol_cols, rowCellOf, hidx]
  rw [List.getElem?_set_self hjlt]
  rfl

theorem foldl_cleanKeyCol_cols (names : List String) :
    ∀ d : DF, (names.foldl cleanKeyCol d).cols = d.cols := by
  induction names with
  | nil => intro d; rfl
  | cons n rest ih =>
    intro d
    simp only [List.foldl_cons]
    rw [ih (cleanKeyCol d n), cleanKeyCol_cols]

theorem foldl_cleanKeyCol_idx (names : List String) :
    ∀ d : DF, (names.foldl cleanKeyCol d).idx = d.idx := by
  induction names with
  | nil => intro d; rfl
  | cons n rest ih =>
    intro d
    simp only [List.foldl_cons]
    rw [ih (cleanKeyCol d n), cleanKeyCol_idx]

theorem foldl_cleanKeyCol_rows_length (names : List String) :
    ∀ d : DF, (names.foldl cleanKeyCol d).rows.length = d.rows.length := by
  induction names with
  | nil => intro d; rfl
  | cons n rest ih =>
    intro d
    simp only [List.foldl_cons]
    rw [ih (cleanKeyCol d n), cleanKeyCol_rows_length]

theorem foldl_cleanKeyCol_wf (names : List String) :
    ∀ d : DF,
      (∀ (q : Nat) (rq : List Cell), d.rows[q]? = some rq → rq.length = d.cols.length) →
      ∀ (q : Nat) (rq : List Cell), (names.foldl cleanKeyCol d).rows[q]? = some rq →
        rq.length = (names.foldl cleanKeyCol d).cols.length := by
  induction names with
  | nil => intro d hwf; exact hwf
  | cons n rest ih =>
    intro d hwf
    simp only [List.foldl_cons]
    exact ih (cleanKeyCol d n) (cleanKeyCol_wf d n hwf)

theorem foldl_cleanKeyCol_dfCell_other (names : List String) :
    ∀ d : DF, ∀ (q : Nat) (c : String), (∀ k ∈ names, c ≠ k) →
      dfCell (names.foldl cleanKeyCol d) q c = dfCell d q c := by
  induction names with
  | nil => intro d q c _; rfl
  | cons n rest ih =>
    intro d q c hne
    simp only [List.foldl_cons]
    rw [ih (cleanKeyCol d n) q c (fun k hk => hne k (by simp [hk])),
      dfCell_cleanKeyCol_other d n c q (hne n (by simp))]

theorem generateKeys_spec_equity (p : KGParams) (hEq : p.isEquity = true) (d0 : DF)
    (hfresh : ∀ k ∈ keyColNames, k ∉ d0.cols)
    (hwf : ∀ (q : Nat) (rq : List Cell), d0.rows[q]? = some rq → rq.length = d0.cols.length) :
    (generateKeys p d0).cols = d0.cols ++ keyColNames ∧
    (generateKeys p d0).idx = d0.idx ∧
    (generateKeys p d0).rows.length = d0.rows.length ∧
    (∀ (q : Nat) (c : String), c ∈ d0.cols → dfCell (generateKeys p d0) q c = dfCell d0 q c) ∧
    (∀ q : Nat, q < d0.rows.length →
      dfCell (generateKeys p d0) q "matching_key_usi" =
        some (keyClean (toStrC (dfCell d0 q "USI Prefix") ++
          toStrC (dfCell d0 q "USI Value")))) := by
  simp only [generateKeys, hEq, if_true]
  set d1 := setCol d0 "matching_key_usi"
    (catCells (colVals d0 "USI Prefix") (colVals d0 "USI Value")) with hd1
  obtain ⟨hc1, hi1, hl1, hw1, hold1, hnew1⟩ :=
    setCol_step d0 "matching_key_usi"
      (catCells (colVals d0 "USI Prefix") (colVals d0 "USI Value"))
      (hfresh _ (by simp [keyColNames]))
      (by simp [catCells_length, colVals_length]) hwf
  rw [← hd1] at hc1 hi1 hl1 hw1 hold1 hnew1
  set d2 := setCol d1 "matching_key_uti"
    (catCells (colVals d1 "UTI Prefix") (colVals d1 "UTI Value")) with hd2
  obtain ⟨hc2, hi2, hl2, hw2, hold2, hnew2⟩ :=
    setCol_step d1 "matching_key_uti"
      (catCells (colVals d1 "UTI Prefix") (colVals d1 "UTI Value"))
      (by rw [hc1]; simp [List.mem_append]; exact fun hm => hfresh _ (by simp [keyColNames]) hm)
      (by simp [catCells_length, colVals_length]) hw1
  rw [← hd2] at hc2 hi2 hl2 hw2 hold2 hnew2
  set d3 := setCol d2 "matching_key_huti"
    (catCells (colVals d2 p.hutiPreCol) (colVals d2 p.hutiValCol)) with hd3
  obtain ⟨hc3, hi3, hl3, hw3, hold3, hnew3⟩ :=
    setCol_step d2 "matching_key_huti"
      (catCells (colVals d2 p.hutiPreCol) (colVals d2 p.hutiValCol))
      (by
        rw [hc2, hc1]
        simp [List.mem_append]
        exact fun hm => hfresh _ (by simp [keyColNames]) hm)
      (by simp [catCells_length, colVals_length]) hw2
  rw [← hd3] at hc3 hi3 hl3 hw3 hold3 hnew3
  set d4 := setCol d3 "matching_key_usi_value" (colVals d3 "USI Value") with hd4
  obtain ⟨hc4, hi4, hl4, hw4, hold4, hnew4⟩ :=
    setCol_step d3 "matching_key_usi_value" (colVals d3 "USI Value")
      (by
        rw [hc3, hc2, hc1]
        simp [List.mem_append]
        exact fun hm => hfresh _ (by simp [keyColNames]) hm)
      (by simp [colVals_length]) hw3
  rw [← hd4] at hc4 hi4 hl4 hw4 hold4 hnew4
  set d5 := setCol d4 "matching_key_uti_value" (colVals d4 "UTI Value") with hd5
  obtain ⟨hc5, hi5, hl5, hw5, hold5, hnew5⟩ :=
    setCol_step d4 "matching_key_uti_value" (colVals d4 "UTI Value")
      (by
        rw [hc4, hc3, hc2, hc1]
        simp [List.mem_append]
        exact fun hm => hfresh _ (by simp [keyColNames]) hm)
      (by simp [colVals_length]) hw4
  rw [← hd5] at hc5 hi5 hl5 hw5 hold5 hnew5
  refine ⟨?_, ?_, ?_, ?_, ?_⟩
  · rw [foldl_cleanKeyCol_cols, hc5, hc4, hc3, hc2, hc1]
    simp [keyColNames]
  · rw [foldl_cleanKeyCol_idx, hi5, hi4, hi3, hi2, hi1]
  · rw [foldl_cleanKeyCol_rows_length, hl5, hl4, hl3, hl2, hl1]
  · intro q c hc
    have hne : ∀ k ∈ keyColNames, c ≠ k := fun k hk hck => hfresh k hk (hck ▸ hc)
    rw [foldl_cleanKeyCol_dfCell_other keyColNames d5 q c hne]
    have hm1 : c ∈ d1.cols := by rw [hc1]; exact List.mem_append_left _ hc
    have hm2 : c ∈ d2.cols := by rw [hc2]; exact List.mem_append_left _ hm1
    have hm3 : c ∈ d3.cols := by rw [hc3]; exact List.mem_append_left _ hm2
    have hm4 : c ∈ d4.cols := by rw [hc4]; exact List.mem_append_left _ hm3
    rw [hold5 q c hm4, hold4 q c hm3, hold3 q c hm2, hold2 q c hm1, hold1 q c hc]
  · intro q hq
    have hrest : ∀ k ∈ ["matching_key_uti", "matching_key_huti",
        "matching_key_usi_value", "matching_key_uti_value"],
        ("matching_key_usi" : String) ≠ k := by decide
    have hksplit : keyColNames = "matching_key_usi" :: ["matching_key_uti",
        "matching_key_huti", "matching_key_usi_value", "matching_key_uti_value"] := rfl
    rw [hksplit, List.foldl_cons,
      foldl_cleanKeyCol_dfCell_other _ _ q "matching_key_usi" hrest]
    have husimem : "matching_key_usi" ∈ d5.cols := by
      rw [hc5, hc4, hc3, hc2, hc1]
      simp
    have hqlt5 : q < d5.rows.length := by rw [hl5, hl4, hl3, hl2, hl1]; omega
    rw [dfCell_cleanKeyCol_self d5 "matching_key_usi" q husimem hqlt5 hw5]
    have hm1 : ("matching_key_usi" : String) ∈ d1.cols := by rw [hc1]; simp
    have hm2 : ("matching_key_usi" : String) ∈ d2.cols := by
      rw [hc2]; exact List.mem_append_left _ hm1
    have hm3 : ("matching_key_usi" : String) ∈ d3.cols := by
      rw [hc3]; exact List.mem_append_left _ hm2
    have hm4 : ("matching_key_usi" : String) ∈ d4.cols := by
      rw [hc4]; exact List.mem_append_left _ hm3
    rw [hold5 q _ hm4, hold4 q _ hm3, hold3 q _ hm2, hold2 q _ hm1]
    have hv1 : (catCells (colVals d0 "USI Prefix") (colVals d0 "USI Value"))[q]? =
        some (some (toStrC (dfCell d0 q "USI Prefix") ++ toStrC (dfCell d0 q "USI Value"))) :=
      catCells_getElem _ _ q _ _ (colVals_getElem_dfCell d0 "USI Prefix" q hq)
        (colVals_getElem_dfCell d0 "USI Value" q hq)
    rw [hnew1 q _ hv1]
    rfl

theorem generateKeys_spec_nonequity (p : KGParams) (hEq : p.isEquity = false) (d0 : DF)
    (hfresh : ∀ k ∈ keyColNames, k ∉ d0.cols)
    (hwf : ∀ (q : Nat) (rq : List Cell), d0.rows[q]? = some rq → rq.length = d0.cols.length) :
    (generateKeys p d0).cols = d0.cols ++ keyColNames ∧
    (generateKeys p d0).idx = d0.idx ∧
    (generateKeys p d0).rows.length = d0.rows.length ∧
    (∀ (q : Nat) (c : String), c ∈ d0.cols → dfCell (generateKeys p d0) q c = dfCell d0 q c) := by
  simp only [generateKeys, hEq, Bool.false_eq_true, if_false]
  set d1 := setCol d0 "matching_key_usi"
    (catCells (catCells (colVals d0 p.party1LeiCol) (colVals d0 "USI Prefix"))
      (colVals d0 "USI Value")) with hd1
  obtain ⟨hc1, hi1, hl1, hw1, hold1, hnew1⟩ :=
    setCol_step d0 "matching_key_usi"
      (catCells (catCells (colVals d0 p.party1LeiCol) (colVals d0 "USI Prefix"))
        (colVals d0 "USI Value"))
      (hfresh _ (by simp [keyColNames]))
      (by simp [catCells_length, colVals_length]) hwf
  rw [← hd1] at hc1 hi1 hl1 hw1 hold1 hnew1
  set d2 := setCol d1 "matching_key_uti"
    (catCells (catCells (colVals d1 p.party1LeiCol) (colVals d1 "UTI Prefix"))
      (colVals d1 "UTI Value")) with hd2
  obtain ⟨hc2, hi2, hl2, hw2, hold2, hnew2⟩ :=
    setCol_step d1 "matching_key_uti"
      (catCells (catCells (colVals d1 p.party1LeiCol) (colVals d1 "UTI Prefix"))
        (colVals d1 "UTI Value"))
      (by rw [hc1]; simp [List.mem_append]; exact fun hm => hfresh _ (by simp [keyColNames]) hm)
      (by simp [catCells_length, colVals_length]) hw1
  rw [← hd2] at hc2 hi2 hl2 hw2 hold2 hnew2
  set d3 := setCol d2 "matching_key_huti"
    (catCells (catCells (colVals d2 p.party1LeiCol) (colVals d2 p.hutiPreCol))
      (colVals d2 p.hutiValCol)) with hd3
  obtain ⟨hc3, hi3, hl3, hw3, hold3, hnew3⟩ :=
    setCol_step d2 "matching_key_huti"
      (catCells (catCells (colVals d2 p.party1LeiCol) (colVals d2 p.hutiPreCol))
        (colVals d2 p.hutiValCol))
      (by
        rw [hc2, hc1]
        simp [List.mem_append]
        exact fun hm => hfresh _ (by simp [keyColNames]) hm)
      (by simp [catCells_length, colVals_length]) hw2
  rw [← hd3] at hc3 hi3 hl3 hw3 hold3 hnew3
  set d4 := setCol d3 "matching_key_usi_value"
    (catCells (colVals d3 p.party1LeiCol) (colVals d3 "USI Value")) with hd4
  obtain ⟨hc4, hi4, hl4, hw4, hold4, hnew4⟩ :=
    setCol_step d3 "matching_key_usi_value"
      (catCells (colVals d3 p.party1LeiCol) (colVals d3 "USI Value"))
      (by
        rw [hc3, hc2, hc1]
        simp [List.mem_append]
        exact fun hm => hfresh _ (by simp [keyColNames]) hm)
      (by simp [catCells_length, colVals_length]) hw3
  rw [← hd4] at hc4 hi4 hl4 hw4 hold4 hnew4
  set d5 := setCol d4 "matching_key_uti_value"
    (catCells (colVals d4 p.party1LeiCol) (colVals d4 "UTI Value")) with hd5
  obtain ⟨hc5, hi5, hl5, hw5, hold5, hnew5⟩ :=
    setCol_step d4 "matching_key_uti_value"
      (catCells (colVals d4 p.party1LeiCol) (colVals d4 "UTI Value"))
      (by
        rw [hc4, hc3, hc2, hc1]
        simp [List.mem_append]
        exact fun hm => hfresh _ (by simp [keyColNames]) hm)
      (by simp [catCells_length, colVals_length]) hw4
  rw [← hd5] at hc5 hi5 hl5 hw5 hold5 hnew5
  refine ⟨?_, ?_, ?_, ?_⟩
  · rw [foldl_cleanKeyCol_cols, hc5, hc4, hc3, hc2, hc1]
    simp [keyColNames]
  · rw [foldl_cleanKeyCol_idx, hi5, hi4, hi3, hi2, hi1]
  · rw [foldl_cleanKeyCol_rows_length, hl5, hl4, hl3, hl2, hl1]
  · intro q c hc
    have hne : ∀ k ∈ keyColNames, c ≠ k := fun k hk hck => hfresh k hk (hck ▸ hc)
    rw [foldl_cleanKeyCol_dfCell_other keyColNames d5 q c hne]
    have hm1 : c ∈ d1.cols := by rw [hc1]; exact List.mem_append_left _ hc
    have hm2 : c ∈ d2.cols := by rw [hc2]; exact List.mem_append_left _ hm1
    have hm3 : c ∈ d3.cols := by rw [hc3]; exact List.mem_append_left _ hm2
    have hm4 : c ∈ d4.cols := by rw [hc4]; exact List.mem_append_left _ hm3
    rw [hold5 q c hm4, hold4 q c hm3, hold3 q c hm2, hold2 q c hm1, hold1 q c hc]

/-- Claim C9: when any required column is absent from the input frame, the Key
Generator fails up front with one single `KeyError` whose message lists every
missing required column at once (comma-joined, in declaration order); the run
produces no output frame at all, so the dataset is untouched and no partial
key columns exist. -/
theorem claim_C9 (p : KGParams) (df : DF)
    (hmiss : (requiredColumns p).filter (fun c => !df.cols.contains c) ≠ []) :
    keyGenRun p df = Except.error ("Missing required column(s): " ++
      String.intercalate ", " ((requiredColumns p).filter (fun c => !df.cols.contains c))) := by
  simp only [keyGenRun, kgInit]
  rw [if_pos hmiss]
  rfl

/-- Concrete instance of C9: an equity frame having only `USI Prefix` is
rejected with the five remaining required columns listed in one error. -/
theorem claim_C9_witness :
    (requiredColumns ⟨true, "HUTI Prefix", "HUTI Value", "LEI"⟩).filter
      (fun c => !(mkDF ["USI Prefix"] [[some "x"]]).cols.contains c) ≠ [] ∧
    keyGenRun ⟨true, "HUTI Prefix", "HUTI Value", "LEI"⟩ (mkDF ["USI Prefix"] [[some "x"]]) =
      Except.error ("Missing required column(s): " ++ String.intercalate ", "
        ((requiredColumns ⟨true, "HUTI Prefix", "HUTI Value", "LEI"⟩).filter
          (fun c => !(mkDF ["USI Prefix"] [[some "x"]]).cols.contains c))) :=
  ⟨by decide, claim_C9 ⟨true, "HUTI Prefix", "HUTI Value", "LEI"⟩
    (mkDF ["USI Prefix"] [[some "x"]]) (by decide)⟩

/-- Claim C5 counterexample: the Key Generator does not leave pre-existing
fields unchanged. On an equity frame whose `USI Prefix` field holds "abc",
the run succeeds and the output holds "ABC" in that pre-existing column:
`clean_columns` rewrites every required column in place (fillna / strip /
upper) before the key columns are appended. -/
theorem claim_C5_counterexample :
    ((keyGenRun ⟨true, "HUTI Prefix", "HUTI Value", "LEI"⟩
        (mkDF ["USI Prefix", "USI Value", "UTI Prefix", "UTI Value",
               "HUTI Prefix", "HUTI Value"]
          [[some "abc", some "123", none, none, none, none]])).toOption.map
      (fun o => dfCell o 0 "USI Prefix")) = some (some "ABC") ∧
    dfCell (mkDF ["USI Prefix", "USI Value", "UTI Prefix", "UTI Value",
               "HUTI Prefix", "HUTI Value"]
          [[some "abc", some "123", none, none, none, none]]) 0 "USI Prefix" =
      some "abc" ∧
    (some "ABC" : Cell) ≠ some "abc" := by
  refine ⟨?_, by decide, by decide⟩
  decide

/-- Claim C5 (amended): on success the Key Generator appends exactly the five
derived-key columns, removes no rows and reorders nothing (index and row count
are preserved), and leaves every pre-existing field outside the required
columns unchanged; the required columns themselves are first normalized in
place by `clean_columns` (NaN → '', strip, uppercase), which is the one
deviation the counterexample exhibits. -/
theorem claim_C5_amended (p : KGParams) (df out : DF)
    (hok : keyGenRun p df = Except.ok out)
    (hwf : ∀ (q : Nat) (rq : List Cell), df.rows[q]? = some rq → rq.length = df.cols.length)
    (hfresh : ∀ k ∈ keyColNames, k ∉ df.cols) :
    out.cols = df.cols ++ keyColNames ∧
    out.idx = df.idx ∧
    out.rows.length = df.rows.length ∧
    (∀ (q : Nat) (c : String), c ∈ df.cols → c ∉ requiredColumns p →
      dfCell out q c = dfCell df q c) ∧
    (∀ (q : Nat) (c : String), c ∈ requiredColumns p → q < df.rows.length →
      dfCell out q c = cleanCell (dfCell df q c)) := by
  obtain ⟨hmiss, hout⟩ := keyGenRun_ok p df out hok
  have hfresh' : ∀ k ∈ keyColNames, k ∉ (cleanColumns p df).cols := by
    rw [cleanColumns_cols]; exact hfresh
  have hwf' := cleanColumns_wf p df hwf
  have hspec :
      (generateKeys p (cleanColumns p df)).cols = (cleanColumns p df).cols ++ keyColNames ∧
      (generateKeys p (cleanColumns p df)).idx = (cleanColumns p df).idx ∧
      (generateKeys p (cleanColumns p df)).rows.length = (cleanColumns p df).rows.length ∧
      (∀ (q : Nat) (c : String), c ∈ (cleanColumns p df).cols →
        dfCell (generateKeys p (cleanColumns p df)) q c = dfCell (cleanColumns p df) q c) := by
    cases hEqv : p.isEquity with
    | false => exact generateKeys_spec_nonequity p hEqv _ hfresh' hwf'
    | true =>
      obtain ⟨h1, h2, h3, h4, _⟩ := generateKeys_spec_equity p hEqv _ hfresh' hwf'
      exact ⟨h1, h2, h3, h4⟩
  obtain ⟨hgc, hgi, hgl, hgp⟩ := hspec
  refine ⟨?_, ?_, ?_, ?_, ?_⟩
  · rw [hout, hgc, cleanColumns_cols]
  · rw [hout, hgi, cleanColumns_idx]
  · rw [hout, hgl, cleanColumns_rows_length]
  · intro q c hc hnr
    rw [hout, hgp q c (by rw [cleanColumns_cols]; exact hc),
      dfCell_cleanColumns_not_required p df q c hnr]
  · intro q c hcr hq
    have hccol := required_mem_cols p df hmiss c hcr
    rw [hout, hgp q c (by rw [cleanColumns_cols]; exact hccol)]
    exact dfCell_cleanColumns_required p df q c hcr hccol hq hwf

/-- Concrete instance of the amended C5: on a seven-column equity frame the
run succeeds, the output is the input plus the five key columns in order, the
index is preserved, and the non-required column `Other` keeps its value. -/
theorem claim_C5_witness :
    ∃ out : DF,
      keyGenRun ⟨true, "HUTI Prefix", "HUTI Value", "LEI"⟩
        (mkDF ["USI Prefix", "USI Value", "UTI Prefix", "UTI Value",
               "HUTI Prefix", "HUTI Value", "Other"]
          [[some "abc", some "123", none, none, none, none, some " keep me "]]) =
        Except.ok out ∧
      out.cols = ["USI Prefix", "USI Value", "UTI Prefix", "UTI Value",
               "HUTI Prefix", "HUTI Value", "Other"] ++ keyColNames ∧
      out.idx = [0] ∧
      dfCell out 0 "Other" = some " keep me " := by
  have h := claim_C5_amended ⟨true, "HUTI Prefix", "HUTI Value", "LEI"⟩
    (mkDF ["USI Prefix", "USI Value", "UTI Prefix", "UTI Value",
           "HUTI Prefix", "HUTI Value", "Other"]
      [[some "abc", some "123", none, none, none, none, some " keep me "]])
    (generateKeys ⟨true, "HUTI Prefix", "HUTI Value", "LEI"⟩
      (cleanColumns ⟨true, "HUTI Prefix", "HUTI Value", "LEI"⟩
        (mkDF ["USI Prefix", "USI Value", "UTI Prefix", "UTI Value",
               "HUTI Prefix", "HUTI Value", "Other"]
          [[some "abc", some "123", none, none, none, none, some " keep me "]])))
    rfl
    (by
      intro q rq hh
      match q with
      | 0 =>
        simp only [mkDF, List.getElem?_cons_zero, Option.some.injEq] at hh
        subst hh
        decide
      | (q + 1) =>
        simp only [mkDF, List.getElem?_cons_succ, List.getElem?_nil] at hh
        exact Option.noConfusion hh)
    (by decide)
  refine ⟨_, rfl, h.1, ?_, ?_⟩
  · rw [h.2.1]; decide
  · rw [h.2.2.2.1 0 "Other" (by decide) (by decide)]; decide

theorem foldl_cleanKeyCol_dfCell_self (names : List String) :
    ∀ d : DF, names.Nodup → ∀ (q : Nat) (c : String), c ∈ names → c ∈ d.cols →
      q < d.rows.length →
      (∀ (q' : Nat) (rq : List Cell), d.rows[q']? = some rq → rq.length = d.cols.length) →
      dfCell (names.foldl cleanKeyCol d) q c = some (keyClean (toStrC (dfCell d q c))) := by
  induction names with
  | nil => intro d _ q c hc; exact absurd hc (List.not_mem_nil c)
  | cons n rest ih =>
    intro d hnd q c hc hmem hq hwf
    simp only [List.foldl_cons]
    rcases List.mem_cons.mp hc with hceq | hcr
    · subst hceq
      rw [foldl_cleanKeyCol_dfCell_other rest (cleanKeyCol d c) q c
        (fun k hk hck => (List.nodup_cons.mp hnd).1 (hck ▸ hk))]
      exact dfCell_cleanKeyCol_self d c q hmem hq hwf
    · have hcn : c ≠ n := fun hce => (List.nodup_cons.mp hnd).1 (hce ▸ hcr)
      rw [ih (cleanKeyCol d n) (List.nodup_cons.mp hnd).2 q c hcr
        (by rw [cleanKeyCol_cols]; exact hmem)
        (by rw [cleanKeyCol_rows_length]; exact hq)
        (cleanKeyCol_wf d n hwf),
        dfCell_cleanKeyCol_other d n c q hcn]

theorem generateKeys_keys_equity (p : KGParams) (hEq : p.isEquity = true) (d0 : DF)
    (hfresh : ∀ k ∈ keyColNames, k ∉ d0.cols)
    (hwf : ∀ (q : Nat) (rq : List Cell), d0.rows[q]? = some rq → rq.length = d0.cols.length)
    (hreq : ∀ c ∈ requiredColumns p, c ∈ d0.cols)
    (q : Nat) (hq : q < d0.rows.length) :
    dfCell (generateKeys p d0) q "matching_key_usi" =
      some (keyClean (toStrC (dfCell d0 q "USI Prefix") ++ toStrC (dfCell d0 q "USI Value"))) ∧
    dfCell (generateKeys p d0) q "matching_key_uti" =
      some (keyClean (toStrC (dfCell d0 q "UTI Prefix") ++ toStrC (dfCell d0 q "UTI Value"))) ∧
    dfCell (generateKeys p d0) q "matching_key_huti" =
      some (keyClean (toStrC (dfCell d0 q p.hutiPreCol) ++ toStrC (dfCell d0 q p.hutiValCol))) ∧
    dfCell (generateKeys p d0) q "matching_key_usi_value" =
      some (keyClean (toStrC (dfCell d0 q "USI Value"))) ∧
    dfCell (generateKeys p d0) q "matching_key_uti_value" =
      some (keyClean (toStrC (dfCell d0 q "UTI Value"))) := by
  have hup0 : "USI Prefix" ∈ d0.cols := hreq _ (by simp [requiredColumns])
  have huv0 : "USI Value" ∈ d0.cols := hreq _ (by simp [requiredColumns])
  have hutp0 : "UTI Prefix" ∈ d0.cols := hreq _ (by simp [requiredColumns])
  have hutv0 : "UTI Value" ∈ d0.cols := hreq _ (by simp [requiredColumns])
  have hhp0 : p.hutiPreCol ∈ d0.cols := hreq _ (by simp [requiredColumns])
  have hhv0 : p.hutiValCol ∈ d0.cols := hreq _ (by simp [requiredColumns])
  simp only [generateKeys, hEq, if_true]
  set d1 := setCol d0 "matching_key_usi"
    (catCells (colVals d0 "USI Prefix") (colVals d0 "USI Value")) with hd1
  obtain ⟨hc1, hi1, hl1, hw1, hold1, hnew1⟩ :=
    setCol_step d0 "matching_key_usi"
      (catCells (colVals d0 "USI Prefix") (colVals d0 "USI Value"))
      (hfresh _ (by simp [keyColNames]))
      (by simp [catCells_length, colVals_length]) hwf
  rw [← hd1] at hc1 hi1 hl1 hw1 hold1 hnew1
  set d2 := setCol d1 "matching_key_uti"
    (catCells (colVals d1 "UTI Prefix") (colVals d1 "UTI Value")) with hd2
  obtain ⟨hc2, hi2, hl2, hw2, hold2, hnew2⟩ :=
    setCol_step d1 "matching_key_uti"
      (catCells (colVals d1 "UTI Prefix") (colVals d1 "UTI Value"))
      (by rw [hc1]; simp [List.mem_append]; exact fun hm => hfresh _ (by simp [keyColNames]) hm)
      (by simp [catCells_length, colVals_length]) hw1
  rw [← hd2] at hc2 hi2 hl2 hw2 hold2 hnew2
  set d3 := setCol d2 "matching_key_huti"
    (catCells (colVals d2 p.hutiPreCol) (colVals d2 p.hutiValCol)) with hd3
  obtain ⟨hc3, hi3, hl3, hw3, hold3, hnew3⟩ :=
    setCol_step d2 "matching_key_huti"
      (catCells (colVals d2 p.hutiPreCol) (colVals d2 p.hutiValCol))
      (by
        rw [hc2, hc1]
        simp [List.mem_append]
        exact fun hm => hfresh _ (by simp [keyColNames]) hm)
      (by simp [catCells_length, colVals_length]) hw2
  rw [← hd3] at hc3 hi3 hl3 hw3 hold3 hnew3
  set d4 := setCol d3 "matching_key_usi_value" (colVals d3 "USI Value") with hd4
  obtain ⟨hc4, hi4, hl4, hw4, hold4, hnew4⟩ :=
    setCol_step d3 "matching_key_usi_value" (colVals d3 "USI Value")
      (by
        rw [hc3, hc2, hc1]
        simp [List.mem_append]
        exact fun hm => hfresh _ (by simp [keyColNames]) hm)
      (by simp [colVals_length]) hw3
  rw [← hd4] at hc4 hi4 hl4 hw4 hold4 hnew4
  set d5 := setCol d4 "matching_key_uti_value" (colVals d4 "UTI Value") with hd5
  obtain ⟨hc5, hi5, hl5, hw5, hold5, hnew5⟩ :=
    setCol_step d4 "matching_key_uti_value" (colVals d4 "UTI Value")
      (by
        rw [hc4, hc3, hc2, hc1]
        simp [List.mem_append]
        exact fun hm => hfresh _ (by simp [keyColNames]) hm)
      (by simp [colVals_length]) hw4
  rw [← hd5] at hc5 hi5 hl5 hw5 hold5 hnew5
  have hq1 : q < d1.rows.length := by rw [hl1]; exact hq
  have hq2 : q < d2.rows.length := by rw [hl2]; exact hq1
  have hq3 : q < d3.rows.length := by rw [hl3]; exact hq2
  have hq4 : q < d4.rows.length := by rw [hl4]; exact hq3
  have hq5 : q < d5.rows.length := by rw [hl5]; exact hq4
  have huv1 : "USI Value" ∈ d1.cols := by rw [hc1]; exact List.mem_append_left _ huv0
  have huv2 : "USI Value" ∈ d2.cols := by rw [hc2]; exact List.mem_append_left _ huv1
  have hutv1 : "UTI Value" ∈ d1.cols := by rw [hc1]; exact List.mem_append_left _ hutv0
  have hutv2 : "UTI Value" ∈ d2.cols := by rw [hc2]; exact List.mem_append_left _ hutv1
  have hutv3 : "UTI Value" ∈ d3.cols := by rw [hc3]; exact List.mem_append_left _ hutv2
  have hhp1 : p.hutiPreCol ∈ d1.cols := by rw [hc1]; exact List.mem_append_left _ hhp0
  have hhv1 : p.hutiValCol ∈ d1.cols := by rw [hc1]; exact List.mem_append_left _ hhv0
  have musi1 : "matching_key_usi" ∈ d1.cols := by rw [hc1]; simp
  have musi2 : "matching_key_usi" ∈ d2.cols := by rw [hc2]; exact List.mem_append_left _ musi1
  have musi3 : "matching_key_usi" ∈ d3.cols := by rw [hc3]; exact List.mem_append_left _ musi2
  have musi4 : "matching_key_usi" ∈ d4.cols := by rw [hc4]; exact List.mem_append_left _ musi3
  have muti2 : "matching_key_uti" ∈ d2.cols := by rw [hc2]; simp
  have muti3 : "matching_key_uti" ∈ d3.cols := by rw [hc3]; exact List.mem_append_left _ muti2
  have muti4 : "matching_key_uti" ∈ d4.cols := by rw [hc4]; exact List.mem_append_left _ muti3
  have mhuti3 : "matching_key_huti" ∈ d3.cols := by rw [hc3]; simp
  have mhuti4 : "matching_key_huti" ∈ d4.cols := by rw [hc4]; exact List.mem_append_left _ mhuti3
  have musiv4 : "matching_key_usi_value" ∈ d4.cols := by rw [hc4]; simp
  have husi5 : dfCell d5 q "matching_key_usi" =
      some (toStrC (dfCell d0 q "USI Prefix") ++ toStrC (dfCell d0 q "USI Value")) := by
    rw [hold5 q _ musi4, hold4 q _ musi3, hold3 q _ musi2, hold2 q _ musi1]
    exact hnew1 q _ (catCells_getElem _ _ q _ _
      (colVals_getElem_dfCell d0 "USI Prefix" q hq)
      (colVals_getElem_dfCell d0 "USI Value" q hq))
  have huti5 : dfCell d5 q "matching_key_uti" =
      some (toStrC (dfCell d0 q "UTI Prefix") ++ toStrC (dfCell d0 q "UTI Value")) := by
    rw [hold5 q _ muti4, hold4 q _ muti3, hold3 q _ muti2]
    rw [hnew2 q _ (catCells_getElem _ _ q _ _
      (colVals_getElem_dfCell d1 "UTI Prefix" q hq1)
      (colVals_getElem_dfCell d1 "UTI Value" q hq1))]
    rw [hold1 q _ hutp0, hold1 q _ hutv0]
  have hhuti5 : dfCell d5 q "matching_key_huti" =
      some (toStrC (dfCell d0 q p.hutiPreCol) ++ toStrC (dfCell d0 q p.hutiValCol)) := by
    rw [hold5 q _ mhuti4, hold4 q _ mhuti3]
    rw [hnew3 q _ (catCells_getElem _ _ q _ _
      (colVals_getElem_dfCell d2 p.hutiPreCol q hq2)
      (colVals_getElem_dfCell d2 p.hutiValCol q hq2))]
    rw [hold2 q _ hhp1, hold1 q _ hhp0, hold2 q _ hhv1, hold1 q _ hhv0]
  have husiv5 : dfCell d5 q "matching_key_usi_value" = dfCell d0 q "USI Value" := by
    rw [hold5 q _ musiv4]
    rw [hnew4 q _ (colVals_getElem_dfCell d3 "USI Value" q hq3)]
    rw [hold3 q _ huv2, hold2 q _ huv1, hold1 q _ huv0]
  have hutiv5 : dfCell d5 q "matching_key_uti_value" = dfCell d0 q "UTI Value" := by
    rw [hnew5 q _ (colVals_getElem_dfCell d4 "UTI Value" q hq4)]
    rw [hold4 q _ hutv3, hold3 q _ hutv2, hold2 q _ hutv1, hold1 q _ hutv0]
  have hmem5 : ∀ k ∈ keyColNames, k ∈ d5.cols := by
    intro k hk
    rw [hc5, hc4, hc3, hc2, hc1]
    simp only [keyColNames, List.mem_cons, List.not_mem_nil, or_false] at hk
    simp [List.mem_append]
    rcases hk with h | h | h | h | h <;> simp [h]
  refine ⟨?_, ?_, ?_, ?_, ?_⟩
  · rw [foldl_cleanKeyCol_dfCell_self keyColNames d5 (by decide) q "matching_key_usi"
      (by decide) (hmem5 _ (by decide)) hq5 hw5, husi5]
    rfl
  · rw [foldl_cleanKeyCol_dfCell_self keyColNames d5 (by decide) q "matching_key_uti"
      (by decide) (hmem5 _ (by decide)) hq5 hw5, huti5]
    rfl
  · rw [foldl_cleanKeyCol_dfCell_self keyColNames d5 (by decide) q "matching_key_huti"
      (by decide) (hmem5 _ (by decide)) hq5 hw5, hhuti5]
    rfl
  · rw [foldl_cleanKeyCol_dfCell_self keyColNames d5 (by decide) q "matching_key_usi_value"
      (by decide) (hmem5 _ (by decide)) hq5 hw5, husiv5]
  · rw [foldl_cleanKeyCol_dfCell_self keyColNames d5 (by decide) q "matching_key_uti_value"
      (by decide) (hmem5 _ (by decide)) hq5 hw5, hutiv5]

theorem generateKeys_keys_nonequity (p : KGParams) (hEq : p.isEquity = false) (d0 : DF)
    (hfresh : ∀ k ∈ keyColNames, k ∉ d0.cols)
    (hwf : ∀ (q : Nat) (rq : List Cell), d0.rows[q]? = some rq → rq.length = d0.cols.length)
    (hreq : ∀ c ∈ requiredColumns p, c ∈ d0.cols)
    (q : Nat) (hq : q < d0.rows.length) :
    dfCell (generateKeys p d0) q "matching_key_usi" =
      some (keyClean (toStrC (dfCell d0 q p.party1LeiCol) ++
        toStrC (dfCell d0 q "USI Prefix") ++ toStrC (dfCell d0 q "USI Value"))) ∧
    dfCell (generateKeys p d0) q "matching_key_uti" =
      some (keyClean (toStrC (dfCell d0 q p.party1LeiCol) ++
        toStrC (dfCell d0 q "UTI Prefix") ++ toStrC (dfCell d0 q "UTI Value"))) ∧
    dfCell (generateKeys p d0) q "matching_key_huti" =
      some (keyClean (toStrC (dfCell d0 q p.party1LeiCol) ++
        toStrC (dfCell d0 q p.hutiPreCol) ++ toStrC (dfCell d0 q p.hutiValCol))) ∧
    dfCell (generateKeys p d0) q "matching_key_usi_value" =
      some (keyClean (toStrC (dfCell d0 q p.party1LeiCol) ++
        toStrC (dfCell d0 q "USI Value"))) ∧
    dfCell (generateKeys p d0) q "matching_key_uti_value" =
      some (keyClean (toStrC (dfCell d0 q p.party1LeiCol) ++
        toStrC (dfCell d0 q "UTI Value"))) := by
  have hlei0 : p.party1LeiCol ∈ d0.cols := hreq _ (by simp [requiredColumns, hEq])
  have hup0 : "USI Prefix" ∈ d0.cols := hreq _ (by simp [requiredColumns])
  have huv0 : "USI Value" ∈ d0.cols := hreq _ (by simp [requiredColumns])
  have hutp0 : "UTI Prefix" ∈ d0.cols := hreq _ (by simp [requiredColumns])
  have hutv0 : "UTI Value" ∈ d0.cols := hreq _ (by simp [requiredColumns])
  have hhp0 : p.hutiPreCol ∈ d0.cols := hreq _ (by simp [requiredColumns])
  have hhv0 : p.hutiValCol ∈ d0.cols := hreq _ (by simp [requiredColumns])
  simp only [generateKeys, hEq, Bool.false_eq_true, if_false]
  set d1 := setCol d0 "matching_key_usi"
    (catCells (catCells (colVals d0 p.party1LeiCol) (colVals d0 "USI Prefix"))
      (colVals d0 "USI Value")) with hd1
  obtain ⟨hc1, hi1, hl1, hw1, hold1, hnew1⟩ :=
    setCol_step d0 "matching_key_usi"
      (catCells (catCells (colVals d0 p.party1LeiCol) (colVals d0 "USI Prefix"))
        (colVals d0 "USI Value"))
      (hfresh _ (by simp [keyColNames]))
      (by simp [catCells_length, colVals_length]) hwf
  rw [← hd1] at hc1 hi1 hl1 hw1 hold1 hnew1
  set d2 := setCol d1 "matching_key_uti"
    (catCells (catCells (colVals d1 p.party1LeiCol) (colVals d1 "UTI Prefix"))
      (colVals d1 "UTI Value")) with hd2
  obtain ⟨hc2, hi2, hl2, hw2, hold2, hnew2⟩ :=
    setCol_step d1 "matching_key_uti"
      (catCells (catCells (colVals d1 p.party1LeiCol) (colVals d1 "UTI Prefix"))
        (colVals d1 "UTI Value"))
      (by rw [hc1]; simp [List.mem_append]; exact fun hm => hfresh _ (by simp [keyColNames]) hm)
      (by simp [catCells_length, colVals_length]) hw1
  rw [← hd2] at hc2 hi2 hl2 hw2 hold2 hnew2
  set d3 := setCol d2 "matching_key_huti"
    (catCells (catCells (colVals d2 p.party1LeiCol) (colVals d2 p.hutiPreCol))
      (colVals d2 p.hutiValCol)) with hd3
  obtain ⟨hc3, hi3, hl3, hw3, hold3, hnew3⟩ :=
    setCol_step d2 "matching_key_huti"
      (catCells (catCells (colVals d2 p.party1LeiCol) (colVals d2 p.hutiPreCol))
        (colVals d2 p.hutiValCol))
      (by
        rw [hc2, hc1]
        simp [List.mem_append]
        exact fun hm => hfresh _ (by simp [keyColNames]) hm)
      (by simp [catCells_length, colVals_length]) hw2
  rw [← hd3] at hc3 hi3 hl3 hw3 hold3 hnew3
  set d4 := setCol d3 "matching_key_usi_value"
    (catCells (colVals d3 p.party1LeiCol) (colVals d3 "USI Value")) with hd4
  obtain ⟨hc4, hi4, hl4, hw4, hold4, hnew4⟩ :=
    setCol_step d3 "matching_key_usi_value"
      (catCells (colVals d3 p.party1LeiCol) (colVals d3 "USI Value"))
      (by
        rw [hc3, hc2, hc1]
        simp [List.mem_append]
        exact fun hm => hfresh _ (by simp [keyColNames]) hm)
      (by simp [catCells_length, colVals_length]) hw3
  rw [← hd4] at hc4 hi4 hl4 hw4 hold4 hnew4
  set d5 := setCol d4 "matching_key_uti_value"
    (catCells (colVals d4 p.party1LeiCol) (colVals d4 "UTI Value")) with hd5
  obtain ⟨hc5, hi5, hl5, hw5, hold5, hnew5⟩ :=
    setCol_step d4 "matching_key_uti_value"
      (catCells (colVals d4 p.party1LeiCol) (colVals d4 "UTI Value"))
      (by
        rw [hc4, hc3, hc2, hc1]
        simp [List.mem_append]
        exact fun hm => hfresh _ (by simp [keyColNames]) hm)
      (by simp [catCells_length, colVals_length]) hw4
  rw [← hd5] at hc5 hi5 hl5 hw5 hold5 hnew5
  have hq1 : q < d1.rows.length := by rw [hl1]; exact hq
  have hq2 : q < d2.rows.length := by rw [hl2]; exact hq1
  have hq3 : q < d3.rows.length := by rw [hl3]; exact hq2
  have hq4 : q < d4.rows.length := by rw [hl4]; exact hq3
  have hq5 : q < d5.rows.length := by rw [hl5]; exact hq4
  have hlei1 : p.party1LeiCol ∈ d1.cols := by rw [hc1]; exact List.mem_append_left _ hlei0
  have hlei2 : p.party1LeiCol ∈ d2.cols := by rw [hc2]; exact List.mem_append_left _ hlei1
  have hlei3 : p.party1LeiCol ∈ d3.cols := by rw [hc3]; exact List.mem_append_left _ hlei2
  have huv1 : "USI Value" ∈ d1.cols := by rw [hc1]; exact List.mem_append_left _ huv0
  have huv2 : "USI Value" ∈ d2.cols := by rw [hc2]; exact List.mem_append_left _ huv1
  have hutv1 : "UTI Value" ∈ d1.cols := by rw [hc1]; exact List.mem_append_left _ hutv0
  have hutv2 : "UTI Value" ∈ d2.cols := by rw [hc2]; exact List.mem_append_left _ hutv1
  have hutv3 : "UTI Value" ∈ d3.cols := by rw [hc3]; exact List.mem_append_left _ hutv2
  have hhp1 : p.hutiPreCol ∈ d1.cols := by rw [hc1]; exact List.mem_append_left _ hhp0
  have hhv1 : p.hutiValCol ∈ d1.cols := by rw [hc1]; exact List.mem_append_left _ hhv0
  have musi1 : "matching_key_usi" ∈ d1.cols := by rw [hc1]; simp
  have musi2 : "matching_key_usi" ∈ d2.cols := by rw [hc2]; exact List.mem_append_left _ musi1
  have musi3 : "matching_key_usi" ∈ d3.cols := by rw [hc3]; exact List.mem_append_left _ musi2
  have musi4 : "matching_key_usi" ∈ d4.cols := by rw [hc4]; exact List.mem_append_left _ musi3
  have muti2 : "matching_key_uti" ∈ d2.cols := by rw [hc2]; simp
  have muti3 : "matching_key_uti" ∈ d3.cols := by rw [hc3]; exact List.mem_append_left _ muti2
  have muti4 : "matching_key_uti" ∈ d4.cols := by rw [hc4]; exact List.mem_append_left _ muti3
  have mhuti3 : "matching_key_huti" ∈ d3.cols := by rw [hc3]; simp
  have mhuti4 : "matching_key_huti" ∈ d4.cols := by rw [hc4]; exact List.mem_append_left _ mhuti3
  have musiv4 : "matching_key_usi_value" ∈ d4.cols := by rw [hc4]; simp
  have husi5 : dfCell d5 q "matching_key_usi" =
      some (toStrC (dfCell d0 q p.party1LeiCol) ++ toStrC (dfCell d0 q "USI Prefix") ++
        toStrC (dfCell d0 q "USI Value")) := by
    rw [hold5 q _ musi4, hold4 q _ musi3, hold3 q _ musi2, hold2 q _ musi1]
    rw [hnew1 q _ (catCells_getElem _ _ q _ _
      (catCells_getElem _ _ q _ _
        (colVals_getElem_dfCell d0 p.party1LeiCol q hq)
        (colVals_getElem_dfCell d0 "USI Prefix" q hq))
      (colVals_getElem_dfCell d0 "USI Value" q hq))]
    rfl
  have huti5 : dfCell d5 q "matching_key_uti" =
      some (toStrC (dfCell d0 q p.party1LeiCol) ++ toStrC (dfCell d0 q "UTI Prefix") ++
        toStrC (dfCell d0 q "UTI Value")) := by
    rw [hold5 q _ muti4, hold4 q _ muti3, hold3 q _ muti2]
    rw [hnew2 q _ (catCells_getElem _ _ q _ _
      (catCells_getElem _ _ q _ _
        (colVals_getElem_dfCell d1 p.party1LeiCol q hq1)
        (colVals_getElem_dfCell d1 "UTI Prefix" q hq1))
      (colVals_getElem_dfCell d1 "UTI Value" q hq1))]
    rw [hold1 q _ hlei0, hold1 q _ hutp0, hold1 q _ hutv0]
    rfl
  have hhuti5 : dfCell d5 q "matching_key_huti" =
      some (toStrC (dfCell d0 q p.party1LeiCol) ++ toStrC (dfCell d0 q p.hutiPreCol) ++
        toStrC (dfCell d0 q p.hutiValCol)) := by
    rw [hold5 q _ mhuti4, hold4 q _ mhuti3]
    rw [hnew3 q _ (catCells_getElem _ _ q _ _
      (catCells_getElem _ _ q _ _
        (colVals_getElem_dfCell d2 p.party1LeiCol q hq2)
        (colVals_getElem_dfCell d2 p.hutiPreCol q hq2))
      (colVals_getElem_dfCell d2 p.hutiValCol q hq2))]
    rw [hold2 q _ hlei1, hold1 q _ hlei0, hold2 q _ hhp1, hold1 q _ hhp0,
      hold2 q _ hhv1, hold1 q _ hhv0]
    rfl
  have husiv5 : dfCell d5 q "matching_key_usi_value" =
      some (toStrC (dfCell d0 q p.party1LeiCol) ++ toStrC (dfCell d0 q "USI Value")) := by
    rw [hold5 q _ musiv4]
    rw [hnew4 q _ (catCells_getElem _ _ q _ _
      (colVals_getElem_dfCell d3 p.party1LeiCol q hq3)
      (colVals_getElem_dfCell d3 "USI Value" q hq3))]
    rw [hold3 q _ hlei2, hold2 q _ hlei1, hold1 q _ hlei0,
      hold3 q _ huv2, hold2 q _ huv1, hold1 q _ huv0]
  have hutiv5 : dfCell d5 q "matching_key_uti_value" =
      some (toStrC (dfCell d0 q p.party1LeiCol) ++ toStrC (dfCell d0 q "UTI Value")) := by
    rw [hnew5 q _ (catCells_getElem _ _ q _ _
      (colVals_getElem_dfCell d4 p.party1LeiCol q hq4)
      (colVals_getElem_dfCell d4 "UTI Value" q hq4))]
    rw [hold4 q _ hlei3, hold3 q _ hlei2, hold2 q _ hlei1, hold1 q _ hlei0,
      hold4 q _ hutv3, hold3 q _ hutv2, hold2 q _ hutv1, hold1 q _ hutv0]
  have hmem5 : ∀ k ∈ keyColNames, k ∈ d5.cols := by
    intro k hk
    rw [hc5, hc4, hc3, hc2, hc1]
    simp only [keyColNames, List.mem_cons, List.not_mem_nil, or_false] at hk
    simp [List.mem_append]
    rcases hk with h | h | h | h | h <;> simp [h]
  refine ⟨?_, ?_, ?_, ?_, ?_⟩
  · rw [foldl_cleanKeyCol_dfCell_self keyColNames d5 (by decide) q "matching_key_usi"
      (by decide) (hmem5 _ (by decide)) hq5 hw5, husi5]
    rfl
  · rw [foldl_cleanKeyCol_dfCell_self keyColNames d5 (by decide) q "matching_key_uti"
      (by decide) (hmem5 _ (by decide)) hq5 hw5, huti5]
    rfl
  · rw [foldl_cleanKeyCol_dfCell_self keyColNames d5 (by decide) q "matching_key_huti"
      (by decide) (hmem5 _ (by decide)) hq5 hw5, hhuti5]
    rfl
  · rw [foldl_cleanKeyCol_dfCell_self keyColNames d5 (by decide) q "matching_key_usi_value"
      (by decide) (hmem5 _ (by decide)) hq5 hw5, husiv5]
    rfl
  · rw [foldl_cleanKeyCol_dfCell_self keyColNames d5 (by decide) q "matching_key_uti_value"
      (by decide) (hmem5 _ (by decide)) hq5 hw5, hutiv5]
    rfl

/-- Claim C8: every derived matching key is the concatenation of its source
fields, each source field first normalized independently (trim, uppercase —
`clean_columns`) and the concatenated result then normalized again (every
character outside [A-Z0-9] removed, uppercase — the `columns_to_clean` pass);
in the equity branch the keys concatenate prefix/value pairs, in the other
branch Party1 LEI is prepended; and in particular a primary record with USI
prefix "ABC" / value "123" and a reference record with USI prefix "abc" /
value "123" both yield `matching_key_usi` "ABC123" and the Progressive
Matcher marks them matched on that key. -/
theorem claim_C8 (p : KGParams) (df out : DF)
    (hok : keyGenRun p df = Except.ok out)
    (hwf : ∀ (q : Nat) (rq : List Cell), df.rows[q]? = some rq → rq.length = df.cols.length)
    (hfresh : ∀ k ∈ keyColNames, k ∉ df.cols)
    (q : Nat) (hq : q < df.rows.length) :
    (p.isEquity = true →
      dfCell out q "matching_key_usi" = some (keyClean
        (strUpper (pyStrip (toStrC (dfCell df q "USI Prefix"))) ++
         strUpper (pyStrip (toStrC (dfCell df q "USI Value"))))) ∧
      dfCell out q "matching_key_uti" = some (keyClean
        (strUpper (pyStrip (toStrC (dfCell df q "UTI Prefix"))) ++
         strUpper (pyStrip (toStrC (dfCell df q "UTI Value"))))) ∧
      dfCell out q "matching_key_huti" = some (keyClean
        (strUpper (pyStrip (toStrC (dfCell df q p.hutiPreCol))) ++
         strUpper (pyStrip (toStrC (dfCell df q p.hutiValCol))))) ∧
      dfCell out q "matching_key_usi_value" = some (keyClean
        (strUpper (pyStrip (toStrC (dfCell df q "USI Value"))))) ∧
      dfCell out q "matching_key_uti_value" = some (keyClean
        (strUpper (pyStrip (toStrC (dfCell df q "UTI Value")))))) ∧
    (p.isEquity = false →
      dfCell out q "matching_key_usi" = some (keyClean
        (strUpper (pyStrip (toStrC (dfCell df q p.party1LeiCol))) ++
         strUpper (pyStrip (toStrC (dfCell df q "USI Prefix"))) ++
         strUpper (pyStrip (toStrC (dfCell df q "USI Value"))))) ∧
      dfCell out q "matching_key_uti" = some (keyClean
        (strUpper (pyStrip (toStrC (dfCell df q p.party1LeiCol))) ++
         strUpper (pyStrip (toStrC (dfCell df q "UTI Prefix"))) ++
         strUpper (pyStrip (toStrC (dfCell df q "UTI Value"))))) ∧
      dfCell out q "matching_key_huti" = some (keyClean
        (strUpper (pyStrip (toStrC (dfCell df q p.party1LeiCol))) ++
         strUpper (pyStrip (toStrC (dfCell df q p.hutiPreCol))) ++
         strUpper (pyStrip (toStrC (dfCell df q p.hutiValCol))))) ∧
      dfCell out q "matching_key_usi_value" = some (keyClean
        (strUpper (pyStrip (toStrC (dfCell df q p.party1LeiCol))) ++
         strUpper (pyStrip (toStrC (dfCell df q "USI Value"))))) ∧
      dfCell out q "matching_key_uti_value" = some (keyClean
        (strUpper (pyStrip (toStrC (dfCell df q p.party1LeiCol))) ++
         strUpper (pyStrip (toStrC (dfCell df q "UTI Value")))))) ∧
    ((keyGenRun ⟨true, "HUTI Prefix", "HUTI Value", "LEI"⟩
        (mkDF ["USI Prefix", "USI Value", "UTI Prefix", "UTI Value",
               "HUTI Prefix", "HUTI Value"]
          [[some "ABC", some "123", none, none, none, none]])).toOption.map
      (fun o => dfCell o 0 "matching_key_usi") = some (some "ABC123") ∧
    (keyGenRun ⟨true, "HUTI Prefix", "HUTI Value", "LEI"⟩
        (mkDF ["USI Prefix", "USI Value", "UTI Prefix", "UTI Value",
               "HUTI Prefix", "HUTI Value"]
          [[some "abc", some "123", none, none, none, none]])).toOption.map
      (fun o => dfCell o 0 "matching_key_usi") = some (some "ABC123") ∧
    ((keyGenRun ⟨true, "HUTI Prefix", "HUTI Value", "LEI"⟩
        (mkDF ["USI Prefix", "USI Value", "UTI Prefix", "UTI Value",
               "HUTI Prefix", "HUTI Value"]
          [[some "ABC", some "123", none, none, none, none]])).toOption.bind (fun a =>
      (keyGenRun ⟨true, "HUTI Prefix", "HUTI Value", "LEI"⟩
        (mkDF ["USI Prefix", "USI Value", "UTI Prefix", "UTI Value",
               "HUTI Prefix", "HUTI Value"]
          [[some "abc", some "123", none, none, none, none]])).toOption.bind (fun b =>
        (mergeData (initMerger a b "P_" "R_"
            [("matching_key_usi", "matching_key_usi")]) RetType.inner).map
          (fun pr => (pr.1.rows.length, dfCell pr.1 0 "matching_flag"))))) =
      some (1, some "matched")) := by
  obtain ⟨hmiss, hout⟩ := keyGenRun_ok p df out hok
  subst hout
  have hfresh' : ∀ k ∈ keyColNames, k ∉ (cleanColumns p df).cols := by
    rw [cleanColumns_cols]; exact hfresh
  have hwf' := cleanColumns_wf p df hwf
  have hq' : q < (cleanColumns p df).rows.length := by
    rw [cleanColumns_rows_length]; exact hq
  have hreq' : ∀ c ∈ requiredColumns p, c ∈ (cleanColumns p df).cols := by
    rw [cleanColumns_cols]
    exact fun c hc => required_mem_cols p df hmiss c hc
  have hcc : ∀ c ∈ requiredColumns p,
      dfCell (cleanColumns p df) q c = cleanCell (dfCell df q c) :=
    fun c hc => dfCell_cleanColumns_required p df q c hc
      (required_mem_cols p df hmiss c hc) hq hwf
  refine ⟨?_, ?_, ?_⟩
  · intro hEq
    obtain ⟨h1, h2, h3, h4, h5⟩ :=
      generateKeys_keys_equity p hEq (cleanColumns p df) hfresh' hwf' hreq' q hq'
    refine ⟨?_, ?_, ?_, ?_, ?_⟩
    · rw [h1, hcc "USI Prefix" (by simp [requiredColumns]),
        hcc "USI Value" (by simp [requiredColumns])]
      rfl
    · rw [h2, hcc "UTI Prefix" (by simp [requiredColumns]),
        hcc "UTI Value" (by simp [requiredColumns])]
      rfl
    · rw [h3, hcc p.hutiPreCol (by simp [requiredColumns]),
        hcc p.hutiValCol (by simp [requiredColumns])]
      rfl
    · rw [h4, hcc "USI Value" (by simp [requiredColumns])]
      rfl
    · rw [h5, hcc "UTI Value" (by simp [requiredColumns])]
      rfl
  · intro hEq
    obtain ⟨h1, h2, h3, h4, h5⟩ :=
      generateKeys_keys_nonequity p hEq (cleanColumns p df) hfresh' hwf' hreq' q hq'
    refine ⟨?_, ?_, ?_, ?_, ?_⟩
    · rw [h1, hcc p.party1LeiCol (by simp [requiredColumns, hEq]),
        hcc "USI Prefix" (by simp [requiredColumns]),
        hcc "USI Value" (by simp [requiredColumns])]
      rfl
    · rw [h2, hcc p.party1LeiCol (by simp [requiredColumns, hEq]),
        hcc "UTI Prefix" (by simp [requiredColumns]),
        hcc "UTI Value" (by simp [requiredColumns])]
      rfl
    · rw [h3, hcc p.party1LeiCol (by simp [requiredColumns, hEq]),
        hcc p.hutiPreCol (by simp [requiredColumns]),
        hcc p.hutiValCol (by simp [requiredColumns])]
      rfl
    · rw [h4, hcc p.party1LeiCol (by simp [requiredColumns, hEq]),
        hcc "USI Value" (by simp [requiredColumns])]
      rfl
    · rw [h5, hcc p.party1LeiCol (by simp [requiredColumns, hEq]),
        hcc "UTI Value" (by simp [requiredColumns])]
      rfl
  · refine ⟨by decide, by decide, by decide⟩

/-- Concrete instance of C8: on an equity frame whose raw `USI Prefix` is
" abc-1 " and raw `USI Value` is "12 3", the generated `matching_key_usi`
equals the doubly-normalized concatenation of the two source fields. -/
theorem claim_C8_witness :
    (0 : Nat) < (mkDF ["USI Prefix", "USI Value", "UTI Prefix", "UTI Value",
        "HUTI Prefix", "HUTI Value"]
      [[some " abc-1 ", some "12 3", none, none, none, none]]).rows.length ∧
    dfCell (generateKeys ⟨true, "HUTI Prefix", "HUTI Value", "LEI"⟩
        (cleanColumns ⟨true, "HUTI Prefix", "HUTI Value", "LEI"⟩
          (mkDF ["USI Prefix", "USI Value", "UTI Prefix", "UTI Value",
              "HUTI Prefix", "HUTI Value"]
            [[some " abc-1 ", some "12 3", none, none, none, none]]))) 0
        "matching_key_usi" =
      some (keyClean
        (strUpper (pyStrip (toStrC (dfCell (mkDF ["USI Prefix", "USI Value",
            "UTI Prefix", "UTI Value", "HUTI Prefix", "HUTI Value"]
          [[some " abc-1 ", some "12 3", none, none, none, none]]) 0 "USI Prefix"))) ++
         strUpper (pyStrip (toStrC (dfCell (mkDF ["USI Prefix", "USI Value",
            "UTI Prefix", "UTI Value", "HUTI Prefix", "HUTI Value"]
          [[some " abc-1 ", some "12 3", none, none, none, none]]) 0 "USI Value"))))) :=
  ⟨by decide,
    ((claim_C8 ⟨true, "HUTI Prefix", "HUTI Value", "LEI"⟩
      (mkDF ["USI Prefix", "USI Value", "UTI Prefix", "UTI Value",
          "HUTI Prefix", "HUTI Value"]
        [[some " abc-1 ", some "12 3", none, none, none, none]])
      (generateKeys ⟨true, "HUTI Prefix", "HUTI Value", "LEI"⟩
        (cleanColumns ⟨true, "HUTI Prefix", "HUTI Value", "LEI"⟩
          (mkDF ["USI Prefix", "USI Value", "UTI Prefix", "UTI Value",
              "HUTI Prefix", "HUTI Value"]
            [[some " abc-1 ", some "12 3", none, none, none, none]])))
      rfl
      (by
        intro q rq hh
        match q with
        | 0 =>
          simp only [mkDF, List.getElem?_cons_zero, Option.some.injEq] at hh
          subst hh
          decide
        | (q + 1) =>
          simp only [mkDF, List.getElem?_cons_succ, List.getElem?_nil] at hh
          exact Option.noConfusion hh)
      (by decide) 0 (by decide)).1 rfl).1⟩
